import Mathlib

set_option maxRecDepth 40000

/-!
Verification development for the mail-agent routing pipeline.

Shallow embedding of the rule matcher, routing engine, AI analyzer adapters
(Ollama and Gemini), and the web-dashboard lifecycle (processing loop,
operator approve and reject), translated from the Python sources:
  portable/mail_agent/router/models.py     (Rule, RoutingDecision)
  portable/mail_agent/router/engine.py     (Router.decide)
  mail-agent-deploy/mail_agent/analyzer/ollama.py
  mail-agent-deploy/mail_agent/analyzer/gemini.py
  portable/web_dashboard.py                (process_emails, approve_email, reject_email)

Python floats are modelled as rationals extended with NaN and signed
infinities; Python strings as Lean strings (lowercasing is modelled on the
ASCII fragment, which is the fragment all configuration and scenario data
lives in).  The external json.loads of the standard library is modelled by
an executable JSON parser over the same grammar Python accepts (including
the NaN and Infinity extensions).  Mail-store and SMTP effects are
modelled as an emitted trace of operations.
-/

namespace MailAgent

/-! ## Python string primitives -/

/-- The characters str.strip() removes (ASCII whitespace set). -/
def isPyWs (c : Char) : Bool :=
  c = ' ' || c = '\t' || c = '\n' || c = '\r' || c = Char.ofNat 11 || c = Char.ofNat 12

def lbrace : Char := Char.ofNat 123

def rbrace : Char := Char.ofNat 125

def lbracket : Char := Char.ofNat 91

def rbracket : Char := Char.ofNat 93

def squote : Char := Char.ofNat 39

/-- List-level left strip. -/
def stripLeft (l : List Char) : List Char := l.dropWhile isPyWs

/-- List-level right strip. -/
def stripRight (l : List Char) : List Char := ((l.reverse).dropWhile isPyWs).reverse

/-- List-level str.strip(). -/
def stripList (l : List Char) : List Char := stripRight (stripLeft l)

/-- Python str.strip() with no arguments. -/
def pyStrip (s : String) : String := String.mk (stripList s.toList)

/-- ASCII lowercasing of one character; models str.lower() on the ASCII fragment. -/
def asciiLower (c : Char) : Char :=
  if 65 ≤ c.toNat && c.toNat ≤ 90 then Char.ofNat (c.toNat + 32) else c

/-- Python str.lower(), on the ASCII fragment. -/
def pyLower (s : String) : String := String.mk (s.toList.map asciiLower)

/-- needle.isPrefixOf-style check at the head of a character list. -/
def leadsWith : List Char → List Char → Bool
  | [], _ => true
  | _ :: _, [] => false
  | a :: as, b :: bs => a = b && leadsWith as bs

/-- Substring containment on character lists. -/
def hasSub (needle : List Char) : List Char → Bool
  | [] => needle.isEmpty
  | c :: t => leadsWith needle (c :: t) || hasSub needle t

/-- Python membership test: needle in hay (substring containment). -/
def pyIn (needle hay : String) : Bool := hasSub needle.toList hay.toList

/-- Python str.startswith for a string argument. -/
def pyStartsWith (s pre : String) : Bool := leadsWith pre.toList s.toList

/-- s.replace(star, empty): remove every asterisk. -/
def removeStar (s : String) : String := String.mk (s.toList.filter (fun c => !(c = '*')))

/-- Python str.split(sep, 1): split at the first occurrence of a one-character
separator, returning the part before and the part after (none when absent). -/
def splitOnce (sep : Char) : List Char → Option (List Char × List Char)
  | [] => none
  | c :: t =>
    if c = sep then some ([], t)
    else match splitOnce sep t with
      | some (a, b) => some (c :: a, b)
      | none => none

/-- Python ", ".join(parts). -/
def joinCommaSp : List String → String
  | [] => ""
  | [x] => x
  | x :: xs => x ++ ", " ++ joinCommaSp xs

/-! ## Exact rational arithmetic helpers

The rational field operations of the ambient library are not
definitionally reducible, so every rational value the embedded code
computes is built through mkRat, which is; the bridge lemmas below relate
the helpers to the field operations for reasoning. -/

def divPow10 (n : ℕ) (k : ℕ) : ℚ := mkRat n (10 ^ k)

def ratAdd (a b : ℚ) : ℚ := mkRat (a.num * b.den + b.num * a.den) (a.den * b.den)

def ratMulPow10 (q : ℚ) (ev : ℤ) : ℚ :=
  if 0 ≤ ev then mkRat (q.num * 10 ^ ev.toNat) q.den
  else mkRat q.num (q.den * 10 ^ (-ev).toNat)

def ratDiv100 (q : ℚ) : ℚ := mkRat q.num (q.den * 100)

lemma ratDiv100_eq (q : ℚ) : ratDiv100 q = q / 100 := by
  rw [ratDiv100, Rat.mkRat_eq_div]
  push_cast
  rw [div_mul_eq_div_div]
  rw [Rat.num_div_den]

/-! ## Python floats

Python floats are modelled as rationals together with NaN and the two
infinities.  Comparisons follow IEEE semantics: every comparison with NaN
is false. -/

inductive PFloat where
  | num (q : ℚ)
  | nan
  | inf
  | ninf
deriving DecidableEq, Repr

/-- IEEE strict less-than as a Boolean. -/
def PFloat.ltB : PFloat → PFloat → Bool
  | .num a, .num b => a < b
  | .num _, .inf => true
  | .ninf, .num _ => true
  | .ninf, .inf => true
  | _, _ => false

/-- IEEE strict greater-than. -/
def PFloat.gtB (a b : PFloat) : Bool := PFloat.ltB b a

def PFloat.isNan : PFloat → Bool
  | .nan => true
  | _ => false

/-- IEEE less-or-equal: false whenever NaN is involved. -/
def PFloat.leB (a b : PFloat) : Bool :=
  if a.isNan || b.isNan then false else !(PFloat.ltB b a)

/-- IEEE greater-or-equal. -/
def PFloat.geB (a b : PFloat) : Bool := PFloat.leB b a

/-- Python min(a, b): returns b when b < a, else a. -/
def pymin (a b : PFloat) : PFloat := if PFloat.ltB b a then b else a

/-- Python max(a, b): returns b when b > a, else a. -/
def pymax (a b : PFloat) : PFloat := if PFloat.gtB b a then b else a

/-- Division by 100 (x / 100.0). -/
def PFloat.div100 : PFloat → PFloat
  | .num q => .num (ratDiv100 q)
  | .nan => .nan
  | .inf => .inf
  | .ninf => .ninf

/-- The returned confidence is a real number in the unit interval. -/
def pfIn01 : PFloat → Bool
  | .num q => decide (0 ≤ q ∧ q ≤ 1)
  | _ => false

/-! ## Data model: analysis results and routing decisions

From mail_agent/analyzer/models.py and the fallback dataclass in
analyzer/ollama.py. -/

structure AnalysisResult where
  forward_to : String
  category : String
  confidence : PFloat
  reasoning : String
  additional_destinations : List String
  raw_response : String
deriving Repr

/-- From router/models.py: RoutingDecision. -/
structure RoutingDecision where
  forward_to : String
  matched_rule : Option String
  ai_result : Option AnalysisResult
  should_forward : Bool
  additional_destinations : List String
deriving Repr

/-- RoutingDecision.all_destinations: the primary destination (when non-empty)
followed by the additional destinations. -/
def RoutingDecision.all_destinations (d : RoutingDecision) : List String :=
  (if d.forward_to.isEmpty then [] else [d.forward_to]) ++ d.additional_destinations

/-! ## Rules (router/models.py) -/

structure Rule where
  name : String
  match_from : Option String
  match_subject : Option (List String)
  match_keywords : Option (List String)
  forward_to : String
deriving Repr

/-- The email_data dictionary produced by Email.to_dict() in client/models.py. -/
structure EmailData where
  fromAddr : String
  toAddr : String
  subject : String
  body : String
  date : String
deriving Repr

/-- Truthiness of the optional predicate fields: None and the empty string or
empty list are falsy in Python, so the corresponding check is skipped. -/
def truthyStr : Option String → Bool
  | none => false
  | some s => !s.isEmpty

def truthyList : Option (List String) → Bool
  | none => false
  | some l => !l.isEmpty

/-- The sender clause of Rule.matches: pattern = match_from with every
asterisk removed, lowercased; passes when the pattern occurs in the
lowercased sender.  Skipped when the field is falsy. -/
def Rule.fromClause (r : Rule) (e : EmailData) : Bool :=
  match r.match_from with
  | none => true
  | some pat =>
    if pat.isEmpty then true
    else pyIn (pyLower (removeStar pat)) (pyLower e.fromAddr)

/-- The subject clause: any keyword, lowercased, occurring in the lowercased
subject.  Skipped when the field is falsy. -/
def Rule.subjectClause (r : Rule) (e : EmailData) : Bool :=
  match r.match_subject with
  | none => true
  | some kws =>
    if kws.isEmpty then true
    else kws.any (fun kw => pyIn (pyLower kw) (pyLower e.subject))

/-- The combined keyword clause: any keyword occurring in the lowercased
subject, a space, and the lowercased body.  Skipped when falsy. -/
def Rule.keywordClause (r : Rule) (e : EmailData) : Bool :=
  match r.match_keywords with
  | none => true
  | some kws =>
    if kws.isEmpty then true
    else kws.any (fun kw => pyIn (pyLower kw) (pyLower e.subject ++ " " ++ pyLower e.body))

/-- Rule.matches from router/models.py lines 18 to 38: each declared (truthy)
clause must pass; an early return False for a failing clause is the same as
the conjunction of the three clauses. -/
def Rule.matches (r : Rule) (e : EmailData) : Bool :=
  r.fromClause e && r.subjectClause e && r.keywordClause e

/-- The rule loop of Router.decide (engine.py lines 45 to 53): first rule in
list order whose matches is true, none otherwise. -/
def matchRule : List Rule → EmailData → Option Rule
  | [], _ => none
  | r :: rs, e => if r.matches e then some r else matchRule rs e

/-! ## Router (router/engine.py) -/

/-- The router state after construction: the constructor builds the analyzer
once from configuration; here the analyzer is the classification function it
provides (analyze on the email_data dictionary). -/
structure Router where
  rules : List Rule
  analyzer : Option (EmailData → AnalysisResult)
  default_action : String

/-- Router.decide (engine.py lines 40 to 73).  Rules first; otherwise the
analyzer when present and the default action enables AI; otherwise no route.
The AI branch sets should_forward to
bool(ai_result.forward_to) and ai_result.confidence >= 0.7. -/
def Router.decide (R : Router) (e : EmailData) : RoutingDecision :=
  match matchRule R.rules e with
  | some rule =>
    { forward_to := rule.forward_to
      matched_rule := some rule.name
      ai_result := none
      should_forward := !rule.forward_to.isEmpty
      additional_destinations := [] }
  | none =>
    match R.analyzer, R.default_action = "analyze" || R.default_action = "ai_route" with
    | some f, true =>
      let ar := f e
      { forward_to := ar.forward_to
        matched_rule := none
        ai_result := some ar
        should_forward := !ar.forward_to.isEmpty && PFloat.geB ar.confidence (PFloat.num (mkRat 7 10))
        additional_destinations := ar.additional_destinations }
    | _, _ =>
      { forward_to := ""
        matched_rule := none
        ai_result := none
        should_forward := false
        additional_destinations := [] }

/-! ## JSON values

Models the values produced by json.loads of the Python standard library:
null, booleans, integers, floats (including the NaN and Infinity literal
extensions Python accepts by default), strings, arrays, and objects.
Objects keep their members in parse order; lookup takes the last
occurrence of a key, as a Python dict built by repeated assignment does. -/

inductive JVal where
  | null
  | bool (b : Bool)
  | intNum (n : ℤ)
  | floatNum (q : ℚ)
  | nan
  | inf
  | ninf
  | str (s : String)
  | arr (elts : List JVal)
  | obj (fields : List (String × JVal))

/-- Last-occurrence lookup in an object member list (dict semantics). -/
def objGet (fields : List (String × JVal)) (k : String) : Option JVal :=
  (fields.reverse.find? (fun kv => kv.1 = k)).map (fun kv => kv.2)

/-- data.get(k, default) on a parsed JSON object. -/
def dictGet (v : JVal) (k : String) (dflt : JVal) : JVal :=
  match v with
  | .obj fs => (objGet fs k).getD dflt
  | _ => dflt

/-! ## A json.loads model: executable recursive-descent parsing -/

def isJsonWs (c : Char) : Bool := c = ' ' || c = '\t' || c = '\n' || c = '\r'

def isDigitCh (c : Char) : Bool := 48 ≤ c.toNat && c.toNat ≤ 57

def digitsVal (ds : List Char) : ℕ := ds.foldl (fun a c => a * 10 + (c.toNat - 48)) 0

def hexVal (c : Char) : Option ℕ :=
  if isDigitCh c then some (c.toNat - 48)
  else if 97 ≤ c.toNat && c.toNat ≤ 102 then some (c.toNat - 87)
  else if 65 ≤ c.toNat && c.toNat ≤ 70 then some (c.toNat - 55)
  else none

/-- JSON string body after the opening quote, with the standard escapes.
Strict mode: raw control characters inside a string are rejected. -/
def parseStringBody (acc : List Char) : List Char → Option (String × List Char)
  | [] => none
  | c :: cs =>
    if c = '"' then some (String.mk acc.reverse, cs)
    else if c = '\\' then
      match cs with
      | [] => none
      | e :: cs2 =>
        if e = '"' then parseStringBody ('"' :: acc) cs2
        else if e = '\\' then parseStringBody ('\\' :: acc) cs2
        else if e = '/' then parseStringBody ('/' :: acc) cs2
        else if e = 'b' then parseStringBody (Char.ofNat 8 :: acc) cs2
        else if e = 'f' then parseStringBody (Char.ofNat 12 :: acc) cs2
        else if e = 'n' then parseStringBody ('\n' :: acc) cs2
        else if e = 'r' then parseStringBody ('\r' :: acc) cs2
        else if e = 't' then parseStringBody ('\t' :: acc) cs2
        else if e = 'u' then
          match cs2 with
          | h1 :: h2 :: h3 :: h4 :: cs3 =>
            match hexVal h1, hexVal h2, hexVal h3, hexVal h4 with
            | some a, some b, some c2, some d =>
              parseStringBody (Char.ofNat (((a * 16 + b) * 16 + c2) * 16 + d) :: acc) cs3
            | _, _, _, _ => none
          | _ => none
        else none
    else if c.toNat < 32 then none
    else parseStringBody (c :: acc) cs

/-- JSON number grammar: optional minus, integer part without leading zeros,
optional fraction, optional exponent.  Returns the value together with a
flag telling whether Python would produce a float (fraction or exponent
present) rather than an int. -/
def parseNumberCore (cs0 : List Char) : Option ((Bool × ℚ) × List Char) :=
  let signStep : Bool × List Char :=
    match cs0 with
    | c :: t => if c = '-' then (true, t) else (false, cs0)
    | [] => (false, [])
  let neg := signStep.1
  let cs1 := signStep.2
  let ds := cs1.takeWhile isDigitCh
  let rest := cs1.dropWhile isDigitCh
  if ds.isEmpty then none
  else if 2 ≤ ds.length && ds.head? = some '0' then none
  else
    let ip : ℚ := (digitsVal ds : ℚ)
    let fracStep : Option (Bool × ℚ × List Char) :=
      match rest with
      | c :: t =>
        if c = '.' then
          let fs := t.takeWhile isDigitCh
          if fs.isEmpty then none
          else some (true, divPow10 (digitsVal fs) fs.length, t.dropWhile isDigitCh)
        else some (false, 0, rest)
      | [] => some (false, 0, [])
    match fracStep with
    | none => none
    | some (isF1, fv, rest1) =>
      let expStep : Option (Bool × ℤ × List Char) :=
        match rest1 with
        | c :: t =>
          if c = 'e' || c = 'E' then
            let signE : Bool × List Char :=
              match t with
              | d :: t2 => if d = '-' then (true, t2) else if d = '+' then (false, t2) else (false, t)
              | [] => (false, t)
            let es := signE.2.takeWhile isDigitCh
            if es.isEmpty then none
            else
              some (true, (if signE.1 then -(digitsVal es : ℤ) else (digitsVal es : ℤ)),
                signE.2.dropWhile isDigitCh)
          else some (false, 0, rest1)
        | [] => some (false, 0, [])
      match expStep with
      | none => none
      | some (isF2, ev, rest2) =>
        let mag : ℚ := ratMulPow10 (ratAdd ip fv) ev
        let q : ℚ := if neg then -mag else mag
        some ((isF1 || isF2, q), rest2)

mutual

def parseValue : ℕ → List Char → Option (JVal × List Char)
  | 0, _ => none
  | fuel + 1, cs0 =>
    let cs := cs0.dropWhile isJsonWs
    match cs with
    | [] => none
    | c :: t =>
      if c = '"' then (parseStringBody [] t).map (fun sr => (JVal.str sr.1, sr.2))
      else if c = lbrace then
        match t.dropWhile isJsonWs with
        | d :: t3 => if d = rbrace then some (JVal.obj [], t3) else parseObjMembers fuel [] (t.dropWhile isJsonWs)
        | [] => none
      else if c = lbracket then
        match t.dropWhile isJsonWs with
        | d :: t3 => if d = rbracket then some (JVal.arr [], t3) else parseArrElems fuel [] (t.dropWhile isJsonWs)
        | [] => none
      else if leadsWith "true".toList cs then some (JVal.bool true, cs.drop 4)
      else if leadsWith "false".toList cs then some (JVal.bool false, cs.drop 5)
      else if leadsWith "null".toList cs then some (JVal.null, cs.drop 4)
      else if leadsWith "NaN".toList cs then some (JVal.nan, cs.drop 3)
      else if leadsWith "Infinity".toList cs then some (JVal.inf, cs.drop 8)
      else if leadsWith "-Infinity".toList cs then some (JVal.ninf, cs.drop 9)
      else
        match parseNumberCore cs with
        | some (nv, r) => some ((if nv.1 then JVal.floatNum nv.2 else JVal.intNum nv.2.num), r)
        | none => none

def parseObjMembers : ℕ → List (String × JVal) → List Char → Option (JVal × List Char)
  | 0, _, _ => none
  | fuel + 1, acc, cs0 =>
    match cs0.dropWhile isJsonWs with
    | c :: t =>
      if c = '"' then
        match parseStringBody [] t with
        | some (k, r1) =>
          match r1.dropWhile isJsonWs with
          | d :: r3 =>
            if d = ':' then
              match parseValue fuel r3 with
              | some (v, r4) =>
                match r4.dropWhile isJsonWs with
                | e :: r6 =>
                  if e = ',' then parseObjMembers fuel (acc ++ [(k, v)]) r6
                  else if e = rbrace then some (JVal.obj (acc ++ [(k, v)]), r6)
                  else none
                | [] => none
              | none => none
            else none
          | [] => none
        | none => none
      else none
    | [] => none

def parseArrElems : ℕ → List JVal → List Char → Option (JVal × List Char)
  | 0, _, _ => none
  | fuel + 1, acc, cs0 =>
    match parseValue fuel cs0 with
    | some (v, r1) =>
      match r1.dropWhile isJsonWs with
      | e :: r2 =>
        if e = ',' then parseArrElems fuel (acc ++ [v]) r2
        else if e = rbracket then some (JVal.arr (acc ++ [v]), r2)
        else none
      | [] => none
    | none => none

end

/-- json.loads on a character list: parse one value and require only
whitespace after it. -/
def loadsL (cs : List Char) : Option JVal :=
  match parseValue (cs.length + 1) cs with
  | some (v, rest) => if (rest.dropWhile isJsonWs).isEmpty then some v else none
  | none => none

/-- json.loads on a string. -/
def loads (s : String) : Option JVal := loadsL s.toList

/-! ## Python str() and float() on parsed JSON values -/

/-- Decimal rendering of a float whose value is an exact decimal; models the
repr of Python floats on the fragment produced by parsing short decimal
literals (the only fragment the program ever prints). -/
def floatReprAt (q : ℚ) (k : ℕ) : String :=
  let n : ℤ := (ratMulPow10 q (Int.ofNat k)).num
  let ds := toString n.natAbs
  let ds2 := if ds.length < k + 1 then String.mk (List.replicate (k + 1 - ds.length) '0') ++ ds else ds
  let ip := String.mk (ds2.toList.take (ds2.length - k))
  let fp := String.mk (ds2.toList.drop (ds2.length - k))
  (if n < 0 then "-" else "") ++ ip ++ "." ++ fp

def floatRepr (q : ℚ) : String :=
  if q.den = 1 then toString q.num ++ ".0"
  else
    match (List.range 18).find? (fun k => (ratMulPow10 q (Int.ofNat k)).den = 1) with
    | some k => floatReprAt q k
    | none => toString q.num ++ " / " ++ toString q.den

mutual

/-- Python repr() of a parsed JSON value (strings quoted), used for elements
inside containers. -/
def pyRepr : JVal → String
  | .null => "None"
  | .bool b => if b then "True" else "False"
  | .intNum n => toString n
  | .floatNum q => floatRepr q
  | .nan => "nan"
  | .inf => "inf"
  | .ninf => "-inf"
  | .str s => String.mk [squote] ++ s ++ String.mk [squote]
  | .arr xs => String.mk [lbracket] ++ pyReprElems xs ++ String.mk [rbracket]
  | .obj fs => String.mk [lbrace] ++ pyReprFields fs ++ String.mk [rbrace]

def pyReprElems : List JVal → String
  | [] => ""
  | [x] => pyRepr x
  | x :: y :: xs => pyRepr x ++ ", " ++ pyReprElems (y :: xs)

def pyReprFields : List (String × JVal) → String
  | [] => ""
  | [kv] => String.mk [squote] ++ kv.1 ++ String.mk [squote] ++ ": " ++ pyRepr kv.2
  | kv :: kw :: fs =>
    String.mk [squote] ++ kv.1 ++ String.mk [squote] ++ ": " ++ pyRepr kv.2 ++ ", " ++
      pyReprFields (kw :: fs)

end

/-- Python str() of a parsed JSON value: identity on strings, repr elsewhere. -/
def pyStr : JVal → String
  | .str s => s
  | v => pyRepr v

/-- Python float(string): surrounding whitespace ignored; optional sign;
inf, infinity and nan accepted case-insensitively; otherwise a decimal
mantissa with optional fraction and exponent.  Returns none where Python
raises ValueError. -/
def pyFloatDigits (neg : Bool) (cs : List Char) : Option PFloat :=
  let ds := cs.takeWhile isDigitCh
  let rest := cs.dropWhile isDigitCh
  let fracStep : ℚ × ℕ × List Char :=
    match rest with
    | c :: t =>
      if c = '.' then
        let fs := t.takeWhile isDigitCh
        (divPow10 (digitsVal fs) fs.length, fs.length, t.dropWhile isDigitCh)
      else (0, 0, rest)
    | [] => (0, 0, [])
  let fv := fracStep.1
  let fl := fracStep.2.1
  let rest1 := fracStep.2.2
  if ds.isEmpty && fl = 0 then none
  else
    let expStep : Option (ℤ × List Char) :=
      match rest1 with
      | c :: t =>
        if c = 'e' || c = 'E' then
          let signE : Bool × List Char :=
            match t with
            | d :: t2 => if d = '-' then (true, t2) else if d = '+' then (false, t2) else (false, t)
            | [] => (false, t)
          let es := signE.2.takeWhile isDigitCh
          if es.isEmpty then none
          else some ((if signE.1 then -(digitsVal es : ℤ) else (digitsVal es : ℤ)),
            signE.2.dropWhile isDigitCh)
        else some (0, rest1)
      | [] => some (0, [])
    match expStep with
    | none => none
    | some (ev, rest2) =>
      if !rest2.isEmpty then none
      else
        let mag : ℚ := ratMulPow10 (ratAdd (digitsVal ds : ℚ) fv) ev
        some (.num (if neg then -mag else mag))

def pyFloat (s : String) : Option PFloat :=
  let cs := stripList s.toList
  let signStep : Bool × List Char :=
    match cs with
    | c :: t => if c = '-' then (true, t) else if c = '+' then (false, t) else (false, cs)
    | [] => (false, [])
  let neg := signStep.1
  let b := signStep.2.map asciiLower
  if b = "inf".toList || b = "infinity".toList then some (if neg then .ninf else .inf)
  else if b = "nan".toList then some .nan
  else pyFloatDigits neg signStep.2

/-! ## Sanitizing and JSON extraction (analyzer/ollama.py) -/

def bomChar : Char := Char.ofNat 0xFEFF

def smartLQ : Char := Char.ofNat 0x201C

def smartRQ : Char := Char.ofNat 0x201D

def smartAp : Char := Char.ofNat 0x2019

/-- The three str.replace calls: smart double quotes to the plain double
quote, the smart apostrophe to the plain one (each a one-character
replacement, hence a character map). -/
def fixQuote (c : Char) : Char :=
  if c = smartLQ || c = smartRQ then '"' else if c = smartAp then squote else c

/-- One left-to-right pass of re.sub over the pattern comma, optional
whitespace, then a closing brace or bracket, replacing the match by the
closing character alone; scanning resumes after each replacement. -/
def stripTrailingCommas : ℕ → List Char → List Char
  | 0, cs => cs
  | _, [] => []
  | fuel + 1, c :: cs =>
    if c = ',' then
      match cs.dropWhile isPyWs with
      | b :: rest2 =>
        if b = rbrace || b = rbracket then b :: stripTrailingCommas fuel rest2
        else c :: stripTrailingCommas fuel cs
      | [] => c :: stripTrailingCommas fuel cs
    else c :: stripTrailingCommas fuel cs

/-- _sanitize_common_json_issues: strip a leading byte-order mark, normalize
smart quotes, remove trailing commas before a closing brace or bracket. -/
def sanitizeL (cs : List Char) : List Char :=
  let cs1 := cs.dropWhile (fun c => c = bomChar)
  let cs2 := cs1.map fixQuote
  stripTrailingCommas cs2.length cs2

def sanitize_common_json_issues (s : String) : String := String.mk (sanitizeL s.toList)

/-- Longest prefix of the input that ends in a closing brace, that is, the
text up to and including the last closing brace; none when there is none. -/
def untilLastClose : List Char → Option (List Char)
  | [] => none
  | c :: cs =>
    match untilLastClose cs with
    | some t => some (c :: t)
    | none => if c = rbrace then some [c] else none

/-- The region the greedy regex search for an opening brace, anything, then
a closing brace finds: from the first opening brace to the last closing
brace strictly after it. -/
def braceSpan (cs : List Char) : Option (List Char) :=
  match cs.dropWhile (fun c => !(c = lbrace)) with
  | [] => none
  | c :: rest =>
    match untilLastClose rest with
    | none => none
    | some t => some (c :: t)

def headIs (l : List Char) (c : Char) : Bool := l.head? = some c

def lastIs (l : List Char) (c : Char) : Bool := l.getLast? = some c

/-- The fallback path of _extract_json_object: regex search, strip, sanitize,
parse; errors mirror the ValueError messages raised there. -/
def extractSlow (s : List Char) : Except String JVal :=
  match braceSpan s with
  | none => .error "No JSON found in response"
  | some span =>
    let candidate := stripList span
    let candidate2 := sanitizeL candidate
    match loadsL candidate2 with
    | some v => .ok v
    | none => .error "Invalid JSON"

/-- _extract_json_object (ollama.py lines 328 to 356): strip; when the text
already starts with an opening and ends with a closing brace, try a direct
parse; otherwise, or when the direct parse fails, fall back to the regex
region with sanitization. -/
def extract_json_object (text : String) : Except String JVal :=
  let s := stripList text.toList
  if headIs s lbrace && lastIs s rbrace then
    match loadsL s with
    | some v => .ok v
    | none => extractSlow s
  else extractSlow s

/-! ## Field normalization and response parsing (analyzer/ollama.py) -/

/-- The numeric branch of _normalize_confidence: treat values above one as
percentages, then clamp below by zero and above by one. -/
def numClamp (x : PFloat) : PFloat :=
  let x1 := if PFloat.gtB x (.num 1) then x.div100 else x
  if PFloat.ltB x1 (.num 0) then .num 0
  else if PFloat.gtB x1 (.num 1) then .num 1
  else x1

/-- _normalize_confidence (ollama.py lines 375 to 395).  Python booleans are
instances of int, so they take the numeric branch; strings go through
float() with max and min clamping; any other type falls through to zero. -/
def normalize_confidence (val : JVal) : PFloat :=
  match val with
  | .intNum n => numClamp (.num (n : ℚ))
  | .floatNum q => numClamp (.num q)
  | .bool b => numClamp (.num (if b then 1 else 0))
  | .nan => numClamp .nan
  | .inf => numClamp .inf
  | .ninf => numClamp .ninf
  | .str s =>
    match pyFloat (pyStrip s) with
    | none => .num 0
    | some x =>
      let x2 := if PFloat.gtB x (.num 1) then x.div100 else x
      pymax (.num 0) (pymin (.num 1) x2)
  | _ => .num 0

/-- _parse_response (ollama.py lines 246 to 326): extract the JSON object,
normalize the fields, fold risk flags into the reasoning, then map the
action onto the result shape. -/
def parse_response (response_text : String) : Except String AnalysisResult :=
  match extract_json_object response_text with
  | .error e => .error e
  | .ok data =>
    let category := pyLower (pyStrip (pyStr (dictGet data "category" (.str "unknown"))))
    let action := pyLower (pyStrip (pyStr (dictGet data "action" (.str "needs_review"))))
    let fwdVal := dictGet data "forward_to" .null
    let reason0 := pyStrip (pyStr (dictGet data "reason" (.str "")))
    let riskVal := dictGet data "risk_flags" (.arr [])
    let confidence := normalize_confidence (dictGet data "confidence" (.floatNum 0))
    let riskList : List JVal :=
      match riskVal with
      | .arr xs => xs
      | v => [.str (pyStr v)]
    let reason :=
      if riskList.isEmpty then reason0
      else pyStrip ("⚠️ [" ++ joinCommaSp (riskList.map pyStr) ++ "] " ++ reason0)
    let forward_to_str :=
      match fwdVal with
      | .null => ""
      | v =>
        let s := pyStrip (pyStr v)
        if pyLower s = "null" then "" else s
    if action = "spam" then
      .ok { forward_to := if forward_to_str.isEmpty then "spam@mail.local" else forward_to_str
            category := "spam"
            confidence := confidence
            reasoning := if reason.isEmpty then "🚨 Phishing/scam detected" else pyStrip ("🚨 " ++ reason)
            additional_destinations := []
            raw_response := "" }
    else if action = "forward" && !forward_to_str.isEmpty then
      .ok { forward_to := forward_to_str
            category := category
            confidence := confidence
            reasoning := if reason.isEmpty then "Forwarded by policy" else reason
            additional_destinations := []
            raw_response := "" }
    else if action = "no_forward" then
      .ok { forward_to := ""
            category := category
            confidence := confidence
            reasoning := if reason.isEmpty then "No forwarding required" else reason
            additional_destinations := []
            raw_response := "" }
    else if action = "needs_review" || action = "needs-review" then
      .ok { forward_to := forward_to_str
            category := category
            confidence := confidence
            reasoning := if reason.isEmpty then "Needs manual review" else reason
            additional_destinations := []
            raw_response := "" }
    else
      .ok { forward_to := ""
            category := "review"
            confidence := .num 0
            reasoning := "Unrecognized action " ++ String.mk [squote] ++ action ++
              String.mk [squote] ++ ". Needs manual review."
            additional_destinations := []
            raw_response := "" }

/-! ## The Ollama analyze loop (ollama.py lines 164 to 215)

The backend is the effect of one attempt of _call_ollama followed by
reading the response field: either a raised error (network failure, bad
status, bad response JSON) or the text of the response field (empty when
the field was absent or blank). -/

/-- The retry-exhaustion result: category review, confidence zero, empty
destination, reasoning carrying the last error. -/
def fallbackResult (lastErr : Option String) (lastRaw : String) : AnalysisResult :=
  { forward_to := ""
    category := "review"
    confidence := .num 0
    reasoning := "LLM/parse error after retries: " ++ lastErr.getD "None"
    additional_destinations := []
    raw_response := lastRaw }

/-- One attempt of the loop body: call the backend, strip the raw text,
raise on blank output, otherwise parse.  The second component is the value
last_raw is assigned during the attempt (none when the call itself raised,
leaving last_raw untouched). -/
def stepAttempt (backend : ℕ → Except String String) (i : ℕ) :
    Except String AnalysisResult × Option String :=
  match backend i with
  | .error e => (.error e, none)
  | .ok resp =>
    let raw := pyStrip resp
    if raw.isEmpty then (.error "Empty LLM output (response was blank)", some raw)
    else
      match parse_response raw with
      | .error e => (.error e, some raw)
      | .ok r => (.ok { r with raw_response := raw }, some raw)

/-- The attempt loop over the listed attempt indices, threading last_err and
last_raw exactly as the for loop does. -/
def ollamaAnalyzeGo (backend : ℕ → Except String String) :
    List ℕ → Option String → String → AnalysisResult
  | [], lastErr, lastRaw => fallbackResult lastErr lastRaw
  | i :: rest, _lastErr, lastRaw =>
    match stepAttempt backend i with
    | (.ok r, _) => r
    | (.error e, rawOpt) => ollamaAnalyzeGo backend rest (some e) (rawOpt.getD lastRaw)

/-- OllamaAnalyzer.analyze: attempts 0 through max_retries. -/
def ollamaAnalyze (backend : ℕ → Except String String) (max_retries : ℕ) : AnalysisResult :=
  ollamaAnalyzeGo backend (List.range (max_retries + 1)) none ""

/-! ## The Gemini analyzer (analyzer/gemini.py) -/

/-- Python str.split with a one-character separator, keeping empty parts. -/
def splitOnChar (sep : Char) : List Char → List (List Char)
  | [] => [[]]
  | c :: t =>
    let r := splitOnChar sep t
    if c = sep then [] :: r
    else
      match r with
      | h :: t2 => (c :: h) :: t2
      | [] => [[c]]

/-- response.split on the newline character. -/
def pySplitNl (s : String) : List String := (splitOnChar '\n' s.toList).map String.mk

/-- One line of the _parse_response loop of GeminiAnalyzer: strip the line,
dispatch on the known prefixes, take the text after the first colon.  The
confidence line goes through float() with 0.5 on ValueError, and the parsed
value is stored without any clamping. -/
def geminiLineUpdate (acc : AnalysisResult) (line0 : String) : AnalysisResult :=
  let line := pyStrip line0
  if pyStartsWith line "FORWARD_TO:" then
    match splitOnce ':' line.toList with
    | some pr => { acc with forward_to := pyStrip (String.mk pr.2) }
    | none => acc
  else if pyStartsWith line "CATEGORY:" then
    match splitOnce ':' line.toList with
    | some pr => { acc with category := pyLower (pyStrip (String.mk pr.2)) }
    | none => acc
  else if pyStartsWith line "CONFIDENCE:" then
    match splitOnce ':' line.toList with
    | some pr =>
      match pyFloat (pyStrip (String.mk pr.2)) with
      | some x => { acc with confidence := x }
      | none => { acc with confidence := .num (mkRat 1 2) }
    | none => acc
  else if pyStartsWith line "REASONING:" then
    match splitOnce ':' line.toList with
    | some pr => { acc with reasoning := pyStrip (String.mk pr.2) }
    | none => acc
  else acc

/-- GeminiAnalyzer._parse_response (gemini.py lines 63 to 91): split the
stripped response on newlines and fold the line handler over it, starting
from the documented defaults. -/
def geminiParseResponse (response : String) : AnalysisResult :=
  (pySplitNl (pyStrip response)).foldl geminiLineUpdate
    { forward_to := ""
      category := "unknown"
      confidence := .num (mkRat 1 2)
      reasoning := ""
      additional_destinations := []
      raw_response := "" }

/-- GeminiAnalyzer.analyze: the no-destinations early result, the error
fallback, or the parsed response. -/
def geminiAnalyze (resp : Except String String) (hasDests : Bool) : AnalysisResult :=
  if !hasDests then
    { forward_to := "", category := "unknown", confidence := .num 0
      reasoning := "No destinations configured for AI routing"
      additional_destinations := [], raw_response := "" }
  else
    match resp with
    | .ok text => geminiParseResponse text
    | .error e =>
      { forward_to := "", category := "error", confidence := .num 0
        reasoning := "AI analysis failed: " ++ e
        additional_destinations := [], raw_response := "" }

/-! ## The web-dashboard lifecycle (portable/web_dashboard.py)

The mail store and the outbound transport are external collaborators; their
effects are modelled as a trace of operations.  The sendOk flag injects
success or failure of the effect block guarded by try in the auto-forward
branch; the moveOk flag of reject_email injects success or failure of the
guarded folder move there. -/

/-- The Email dataclass of client/models.py (raw bytes omitted; to_dict does
not expose them). -/
structure EmailR where
  uid : ℤ
  from_addr : String
  to_addr : String
  subject : String
  body : String
  date : String
deriving Repr, DecidableEq

/-- Email.to_dict(). -/
def EmailR.toDict (e : EmailR) : EmailData :=
  { fromAddr := e.from_addr, toAddr := e.to_addr, subject := e.subject
    body := e.body, date := e.date }

/-- The EmailStatus dataclass of web_dashboard.py with its defaults. -/
structure EmailStatusR where
  uid : ℤ
  from_addr : String
  subject : String
  body : String
  status : String
  forward_to : List String
  category : String
  confidence : PFloat
  reasoning : String
  needs_review : Bool
deriving Repr, DecidableEq

/-- One entry of the pending_reviews dictionary (the client handles stored
alongside are connection objects and carry no state of their own). -/
structure PendingEntry where
  email : EmailR
  decision : Option RoutingDecision

/-- The module-level state: the emails_data list and the pending_reviews
dictionary keyed by uid. -/
structure DashState where
  emailsData : List EmailStatusR
  pendingReviews : List (ℤ × PendingEntry)

/-- Effects on the external mail store, transport and log. -/
inductive MailOp where
  | forwardMsg (uid : ℤ) (dest : String)
  | moveMsg (uid : ℤ) (folder : String) (srcFolder : String)
  | logEmail (uid : ℤ) (finalAction : String)
  | logAction (uid : ℤ) (action : String)
deriving Repr, DecidableEq

def pendingGet (pr : List (ℤ × PendingEntry)) (uid : ℤ) : Option PendingEntry :=
  (pr.find? (fun kv => kv.1 == uid)).map (fun kv => kv.2)

/-- Dictionary assignment: overwrite when present, append when absent. -/
def pendingSet (pr : List (ℤ × PendingEntry)) (uid : ℤ) (v : PendingEntry) :
    List (ℤ × PendingEntry) :=
  if (pr.find? (fun kv => kv.1 == uid)).isSome then
    pr.map (fun kv => if kv.1 == uid then (uid, v) else kv)
  else pr ++ [(uid, v)]

def pendingErase (pr : List (ℤ × PendingEntry)) (uid : ℤ) : List (ℤ × PendingEntry) :=
  pr.filter (fun kv => !(kv.1 == uid))

/-- The update loops over emails_data mutate the first record with the given
uid and stop. -/
def updateFirst (p : EmailStatusR → Bool) (f : EmailStatusR → EmailStatusR) :
    List EmailStatusR → List EmailStatusR
  | [] => []
  | x :: xs => if p x then f x :: xs else x :: updateFirst p f xs

def uidsOf (l : List EmailStatusR) : List ℤ := l.map (fun r => r.uid)

def statusOfUid (st : DashState) (uid : ℤ) : Option String :=
  (st.emailsData.find? (fun r => r.uid == uid)).map (fun r => r.status)

def needsReviewOfUid (st : DashState) (uid : ℤ) : Option Bool :=
  (st.emailsData.find? (fun r => r.uid == uid)).map (fun r => r.needs_review)

def forwardToOfUid (st : DashState) (uid : ℤ) : Option (List String) :=
  (st.emailsData.find? (fun r => r.uid == uid)).map (fun r => r.forward_to)

/-- The EmailStatus record built for an email found in the Review folder
(web_dashboard.py lines 980 to 987). -/
def mkReviewStatus (e : EmailR) : EmailStatusR :=
  { uid := e.uid, from_addr := e.from_addr, subject := e.subject, body := e.body
    status := "Review", forward_to := [], category := "", confidence := .num 0
    reasoning := "", needs_review := true }

/-- The EmailStatus record built for a new unread email (lines 1021 to 1028). -/
def mkPendingStatus (e : EmailR) : EmailStatusR :=
  { uid := e.uid, from_addr := e.from_addr, subject := e.subject, body := e.body
    status := "Pending", forward_to := [], category := "", confidence := .num 0
    reasoning := "", needs_review := false }

/-- One iteration of the Review-folder rehydration loop (lines 978 to 997):
a fresh uid gains a Review record and joins existing_uids; a uid absent
from pending_reviews gains a pending entry with no stored decision. -/
def rehydrateStep (acc : DashState × List ℤ) (e : EmailR) : DashState × List ℤ :=
  let st := acc.1
  let uids := acc.2
  let fresh := !(uids.contains e.uid)
  let st1 :=
    if fresh then { st with emailsData := st.emailsData ++ [mkReviewStatus e] } else st
  let uids1 := if fresh then uids ++ [e.uid] else uids
  let st2 :=
    if (pendingGet st1.pendingReviews e.uid).isSome then st1
    else { st1 with pendingReviews := st1.pendingReviews ++ [(e.uid, ⟨e, none⟩)] }
  (st2, uids1)

/-- The rehydration pass at the beginning of process_emails, before
fetch_unread is called.  Also returns the existing_uids set (as the list of
uids) used to filter new emails. -/
def rehydrate (reviewEmails : List EmailR) (st : DashState) : DashState × List ℤ :=
  reviewEmails.foldl rehydrateStep (st, uidsOf st.emailsData)

/-- The auto-approve guard (line 1049):
decision.ai_result and decision.ai_result.confidence > 0.80 and
decision.should_forward. -/
def autoCond (d : RoutingDecision) : Bool :=
  match d.ai_result with
  | some ar => PFloat.gtB ar.confidence (PFloat.num (mkRat 4 5)) && d.should_forward
  | none => false

/-- Processing of one new email (lines 1033 to 1138): decide, store the AI
fields on the record, then either the auto-forward branch (forward to every
destination, move to Quarantine when the category is the quarantine string
and to Processed otherwise, log; on failure of the guarded block the record
is marked Error) or the review branch (record set to Review with
needs-review, destinations only when should_forward, move to the Review
folder, pending entry stored). -/
def processOne (R : Router) (sendOk : Bool) (st : DashState) (email : EmailR) :
    DashState × List MailOp :=
  let decision := R.decide email.toDict
  let ed1 :=
    match decision.ai_result with
    | some ar => updateFirst (fun r => r.uid == email.uid)
        (fun r => { r with category := ar.category, confidence := ar.confidence
                           reasoning := ar.reasoning }) st.emailsData
    | none => st.emailsData
  if autoCond decision then
    let isQ :=
      match decision.ai_result with
      | some ar => ar.category == "quarantine"
      | none => false
    if sendOk then
      let dests := decision.all_destinations
      let folder := if isQ then "Quarantine" else "Processed"
      let ops := dests.map (MailOp.forwardMsg email.uid) ++
        [MailOp.moveMsg email.uid folder "INBOX",
         MailOp.logEmail email.uid (if isQ then "quarantined" else "forwarded")]
      let ed2 := updateFirst (fun r => r.uid == email.uid)
        (fun r => { r with status := if isQ then "Quarantined" else "Forwarded"
                           forward_to := dests }) ed1
      ({ st with emailsData := ed2 }, ops)
    else
      let ed2 := updateFirst (fun r => r.uid == email.uid)
        (fun r => { r with status := "Error" }) ed1
      ({ st with emailsData := ed2 }, [])
  else
    let dests := if decision.should_forward then decision.all_destinations else []
    let ed2 := updateFirst (fun r => r.uid == email.uid)
      (fun r => { r with status := "Review", needs_review := true, forward_to := dests }) ed1
    let pr := pendingSet st.pendingReviews email.uid ⟨email, some decision⟩
    ({ st with emailsData := ed2, pendingReviews := pr },
     [MailOp.moveMsg email.uid "Review" "INBOX"])

/-- process_emails (lines 932 to 1148) as a state transformer: rehydrate the
Review folder first, then fetch the unread emails, keep those with fresh
uids, append their Pending records, and process them in order. -/
def process_emails (R : Router) (sendOk : Bool) (reviewEmails unread : List EmailR)
    (st : DashState) : DashState × List MailOp :=
  let rh := rehydrate reviewEmails st
  let st1 := rh.1
  let uids := rh.2
  let newEmails := unread.filter (fun e => !(uids.contains e.uid))
  let st2 := { st1 with emailsData := st1.emailsData ++ newEmails.map mkPendingStatus }
  newEmails.foldl (fun acc e =>
      let pr := processOne R sendOk acc.1 e
      (pr.1, acc.2 ++ pr.2)) (st2, ([] : List MailOp))

/-- approve_email (lines 1262 to 1343), success path: destinations come from
the stored decision when it wants forwarding, otherwise from the first
record with this uid and a non-empty forward_to list; emails are forwarded
and the message moved from Review to Processed only when that destination
list is non-empty; the record is then relabelled Forwarded, the action
logged and the pending entry dropped. -/
def approve_email (uid : ℤ) (st : DashState) : DashState × List MailOp :=
  match pendingGet st.pendingReviews uid with
  | none => (st, [])
  | some entry =>
    let dests1 : List String :=
      match entry.decision with
      | some d => if d.should_forward then d.all_destinations else []
      | none => []
    let dests :=
      if dests1.isEmpty then
        match st.emailsData.find? (fun r => r.uid == uid && !r.forward_to.isEmpty) with
        | some r => r.forward_to
        | none => []
      else dests1
    let ops :=
      if dests.isEmpty then []
      else dests.map (MailOp.forwardMsg uid) ++ [MailOp.moveMsg uid "Processed" "Review"]
    let ed := updateFirst (fun r => r.uid == uid)
      (fun r => { r with status := "Forwarded", needs_review := false, forward_to := dests })
      st.emailsData
    ({ emailsData := ed, pendingReviews := pendingErase st.pendingReviews uid },
     ops ++ [MailOp.logAction uid "approved"])

/-- reject_email (lines 1346 to 1394): the folder move is guarded by its own
try with only a warning on failure, so the rest of the handler always runs:
the record is relabelled Skipped with needs-review cleared, the rejection
is logged, and the pending entry dropped. -/
def reject_email (uid : ℤ) (moveOk : Bool) (st : DashState) : DashState × List MailOp :=
  match pendingGet st.pendingReviews uid with
  | none => (st, [])
  | some _ =>
    let ops1 := if moveOk then [MailOp.moveMsg uid "Skipped" "Review"] else []
    let ed := updateFirst (fun r => r.uid == uid)
      (fun r => { r with status := "Skipped", needs_review := false }) st.emailsData
    ({ emailsData := ed, pendingReviews := pendingErase st.pendingReviews uid },
     ops1 ++ [MailOp.logAction uid "rejected"])

/-! ## Specification-side rule predicate (for the refinement claim on the
rule matcher) -/

/-- The matching predicate as the specification words it: a rule matches iff
every predicate it declares holds, where declaring means the field is
present and non-empty, the sender predicate is case-insensitive containment
of the asterisk-stripped pattern, and the two keyword predicates have
any-keyword semantics over the subject, respectively the subject
concatenated with the body. -/
def specRuleMatches (r : Rule) (e : EmailData) : Bool :=
  (!truthyStr r.match_from ||
    pyIn (pyLower (removeStar (r.match_from.getD ""))) (pyLower e.fromAddr)) &&
  (!truthyList r.match_subject ||
    (r.match_subject.getD []).any (fun kw => pyIn (pyLower kw) (pyLower e.subject))) &&
  (!truthyList r.match_keywords ||
    (r.match_keywords.getD []).any
      (fun kw => pyIn (pyLower kw) (pyLower e.subject ++ " " ++ pyLower e.body)))

/-! ## Claim C6: first-match rule semantics -/

lemma ite_true_or (b x : Bool) : (if b = true then true else x) = (b || x) := by
  cases b <;> simp

lemma fromClause_skip (r : Rule) (e : EmailData) (h : truthyStr r.match_from = false) :
    r.fromClause e = true := by
  rcases hmf : r.match_from with _ | s
  · simp [Rule.fromClause, hmf]
  · rw [hmf] at h
    have h2 : s.isEmpty = true := by
      revert h
      simp only [truthyStr]
      cases s.isEmpty <;> simp
    simp [Rule.fromClause, hmf, h2]

lemma subjectClause_skip (r : Rule) (e : EmailData) (h : truthyList r.match_subject = false) :
    r.subjectClause e = true := by
  rcases hms : r.match_subject with _ | l
  · simp [Rule.subjectClause, hms]
  · rw [hms] at h
    have h2 : l.isEmpty = true := by
      revert h
      simp only [truthyList]
      cases l.isEmpty <;> simp
    simp [Rule.subjectClause, hms, h2, List.isEmpty_iff.mp h2]

lemma keywordClause_skip (r : Rule) (e : EmailData) (h : truthyList r.match_keywords = false) :
    r.keywordClause e = true := by
  rcases hmk : r.match_keywords with _ | l
  · simp [Rule.keywordClause, hmk]
  · rw [hmk] at h
    have h2 : l.isEmpty = true := by
      revert h
      simp only [truthyList]
      cases l.isEmpty <;> simp
    simp [Rule.keywordClause, hmk, h2, List.isEmpty_iff.mp h2]

/-- C6: for every ordered rule list and message, the rule loop returns the
first rule in list order whose declared predicates all hold; a rule with no
declared (truthy) predicate matches every message; when no rule matches,
none is returned; and the matching predicate of the code coincides with the
predicate the specification describes. -/
theorem c6_first_match_semantics :
    (∀ (rules : List Rule) (e : EmailData) (r : Rule),
      matchRule rules e = some r ↔
        ∃ l1 l2, rules = l1 ++ r :: l2 ∧ r.matches e = true ∧
          ∀ rb ∈ l1, rb.matches e = false) ∧
    (∀ (rules : List Rule) (e : EmailData),
      matchRule rules e = none ↔ ∀ r ∈ rules, r.matches e = false) ∧
    (∀ (r : Rule) (e : EmailData),
      truthyStr r.match_from = false → truthyList r.match_subject = false →
      truthyList r.match_keywords = false → r.matches e = true) ∧
    (∀ (r : Rule) (e : EmailData), r.matches e = specRuleMatches r e) := by
  refine ⟨?_, ?_, ?_, ?_⟩
  · intro rules e r
    induction rules with
    | nil => simp [matchRule]
    | cons a rs ih =>
      cases hae : a.matches e with
      | true =>
        simp only [matchRule, hae, if_true]
        constructor
        · rintro h
          injection h with h
          subst h
          exact ⟨[], rs, rfl, hae, by simp⟩
        · rintro ⟨l1, l2, hdec, hr, hl1⟩
          match l1, hdec with
          | [], hdec =>
            simp only [List.nil_append, List.cons.injEq] at hdec
            rw [hdec.1]
          | b :: l1t, hdec =>
            simp only [List.cons_append, List.cons.injEq] at hdec
            have hb := hl1 b (by simp)
            rw [hdec.1] at hae
            rw [hae] at hb
            exact Bool.noConfusion hb
      | false =>
        rw [show matchRule (a :: rs) e = matchRule rs e from by simp [matchRule, hae]]
        rw [ih]
        constructor
        · rintro ⟨l1, l2, hdec, hr, hl1⟩
          refine ⟨a :: l1, l2, by rw [hdec, List.cons_append], hr, ?_⟩
          intro rb hrb
          rcases List.mem_cons.mp hrb with h | h
          · rw [h]; exact hae
          · exact hl1 rb h
        · rintro ⟨l1, l2, hdec, hr, hl1⟩
          match l1, hdec with
          | [], hdec =>
            simp only [List.nil_append, List.cons.injEq] at hdec
            rw [hdec.1] at hae
            rw [hr] at hae
            exact Bool.noConfusion hae
          | b :: l1t, hdec =>
            simp only [List.cons_append, List.cons.injEq] at hdec
            exact ⟨l1t, l2, hdec.2, hr, fun rb hrb => hl1 rb (List.mem_cons_of_mem b hrb)⟩
  · intro rules e
    induction rules with
    | nil => simp [matchRule]
    | cons a rs ih =>
      cases hae : a.matches e with
      | true => simp [matchRule, hae]
      | false => simp [matchRule, hae, ih]
  · intro r e h1 h2 h3
    simp only [Rule.matches]
    rw [fromClause_skip r e h1, subjectClause_skip r e h2, keywordClause_skip r e h3]
    rfl
  · intro r e
    rcases r with ⟨n, mf, ms, mk, fwd⟩
    cases mf <;> cases ms <;> cases mk <;>
      simp only [Rule.matches, Rule.fromClause, Rule.subjectClause, Rule.keywordClause,
        specRuleMatches, truthyStr, truthyList, Option.getD, ite_true_or,
        Bool.not_false, Bool.not_not, Bool.true_or, Bool.true_and, Bool.and_true]

/-- C6 witness: a rule with no declared predicates matches a concrete
message. -/
theorem c6_first_match_semantics_witness :
    Rule.matches ⟨"All", none, none, none, "x@y"⟩ ⟨"a@b", "c@d", "s", "b", "2025"⟩ = true :=
  c6_first_match_semantics.2.2.1 ⟨"All", none, none, none, "x@y"⟩
    ⟨"a@b", "c@d", "s", "b", "2025"⟩ rfl rfl rfl

/-! ## Claim C9: asterisk handling in the sender predicate -/

/-- C9: in the sender predicate every asterisk is removed from the pattern
before the case-insensitive containment test.  A declared sender pattern
reduces the rule to containment of the star-stripped lowered pattern; the
pattern star-at-company matches a sender containing the at-company suffix,
while an interior star demands the contiguous two letters. -/
theorem c9_star_stripped_containment :
    (∀ (r : Rule) (e : EmailData) (pat : String),
      r.match_from = some pat → pat.isEmpty = false →
      (r.matches e = true ↔
        (pyIn (pyLower (removeStar pat)) (pyLower e.fromAddr) = true ∧
         r.subjectClause e = true ∧ r.keywordClause e = true))) ∧
    Rule.matches ⟨"V", some "*@company.com", none, none, "d@x"⟩
      ⟨"alice@company.com", "", "", "", ""⟩ = true ∧
    Rule.matches ⟨"W", some "a*b", none, none, "d@x"⟩ ⟨"xaby", "", "", "", ""⟩ = true ∧
    Rule.matches ⟨"W", some "a*b", none, none, "d@x"⟩ ⟨"aXb", "", "", "", ""⟩ = false := by
  refine ⟨?_, by decide, by decide, by decide⟩
  intro r e pat hpat hne
  simp only [Rule.matches, Rule.fromClause, hpat, hne, Bool.false_eq_true, if_false,
    Bool.and_eq_true]
  tauto

/-- C9 witness: the general clause applied to the interior-star rule on a
sender containing the contiguous pair. -/
theorem c9_star_stripped_containment_witness :
    Rule.matches ⟨"W", some "a*b", none, none, "d@x"⟩ ⟨"zab", "", "", "", ""⟩ = true :=
  (c9_star_stripped_containment.1 ⟨"W", some "a*b", none, none, "d@x"⟩
      ⟨"zab", "", "", "", ""⟩ "a*b" rfl rfl).mpr ⟨by decide, rfl, rfl⟩

/-! ## Claim C1: the auto-forward threshold across entry points -/

def c1AR : AnalysisResult :=
  { forward_to := "vendors@mail.local", category := "vendors", confidence := .num (mkRat 3 4)
    reasoning := "r", additional_destinations := [], raw_response := "" }

def c1Router : Router := ⟨[], some (fun _ => c1AR), "analyze"⟩

def c1Mail : EmailData := ⟨"a@b", "c@d", "s", "b", "2025-01-01"⟩

/-- C1 counterexample: no single meets-or-exceeds threshold governs both
Router.decide and the auto-forward guard of the lifecycle step.  At
confidence 0.75 with a non-empty destination, decide sets should-forward
true (0.75 at least 0.7) while the lifecycle guard refuses (not above
0.80). -/
theorem c1_single_threshold_refuted :
    ¬ ∃ T : ℚ, ∀ (R : Router) (e : EmailData) (f : EmailData → AnalysisResult),
      matchRule R.rules e = none → R.analyzer = some f →
      (R.default_action = "analyze" ∨ R.default_action = "ai_route") →
      (((R.decide e).should_forward = true ↔
          ((f e).forward_to.isEmpty = false ∧
            PFloat.geB (f e).confidence (.num T) = true)) ∧
       (autoCond (R.decide e) = true ↔
          ((f e).forward_to.isEmpty = false ∧
            PFloat.geB (f e).confidence (.num T) = true))) := by
  rintro ⟨T, h⟩
  have h1 := h c1Router c1Mail (fun _ => c1AR) rfl rfl (Or.inl rfl)
  have hsf : (c1Router.decide c1Mail).should_forward = true := by decide
  have hauto : ¬ (autoCond (c1Router.decide c1Mail) = true) := by decide
  exact hauto (h1.2.mpr (h1.1.mp hsf))

/-- C1 amended: when no rule matches and the analyzer runs, Router.decide
sets should-forward iff the destination is non-empty and the confidence is
at least 0.7, while the lifecycle auto-forward guard additionally demands
confidence strictly above 0.80 — two entry points, two thresholds, two
comparisons. -/
theorem c1_amended_two_thresholds :
    ∀ (R : Router) (e : EmailData) (f : EmailData → AnalysisResult),
      matchRule R.rules e = none → R.analyzer = some f →
      (R.default_action = "analyze" ∨ R.default_action = "ai_route") →
      ((R.decide e).should_forward
          = (!(f e).forward_to.isEmpty && PFloat.geB (f e).confidence (.num (mkRat 7 10)))) ∧
      (autoCond (R.decide e)
          = ((R.decide e).should_forward && PFloat.gtB (f e).confidence (.num (mkRat 4 5)))) := by
  intro R e f hmatch hana hdef
  have hcond : (decide (R.default_action = "analyze") || decide (R.default_action = "ai_route")) = true := by
    rcases hdef with hd | hd <;> simp [hd]
  constructor
  · unfold Router.decide
    rw [hmatch, hana, hcond]
  · unfold Router.decide autoCond
    rw [hmatch, hana, hcond]
    simp [Bool.and_comm]

/-- C1 amended witness: at confidence 0.75 decide forwards while the
lifecycle guard does not. -/
theorem c1_amended_two_thresholds_witness :
    (c1Router.decide c1Mail).should_forward = true ∧
    autoCond (c1Router.decide c1Mail) = false := by
  have h := c1_amended_two_thresholds c1Router c1Mail (fun _ => c1AR) rfl rfl (Or.inl rfl)
  exact ⟨h.1.trans (by decide), h.2.trans (by decide)⟩

/-! ## Claim C4: confidence clamping -/

lemma pfIn01_ne_nan {y : PFloat} (h : pfIn01 y = true) : y ≠ .nan := by
  rintro rfl
  exact Bool.noConfusion h

lemma numClamp_in01 (x : PFloat) (hx : x ≠ PFloat.nan) : pfIn01 (numClamp x) = true := by
  cases x with
  | nan => exact absurd rfl hx
  | inf => rfl
  | ninf => rfl
  | num q =>
    simp only [numClamp, PFloat.gtB, PFloat.ltB, PFloat.div100, ratDiv100_eq,
      decide_eq_true_eq]
    rcases lt_or_le 1 q with h1 | h1
    · rw [if_pos h1]
      dsimp only
      simp only [decide_eq_true_eq]
      rcases lt_or_le (q / 100) 0 with h2 | h2
      · rw [if_pos h2]; rfl
      · rw [if_neg (not_lt.mpr h2)]
        rcases lt_or_le 1 (q / 100) with h3 | h3
        · rw [if_pos h3]; rfl
        · rw [if_neg (not_lt.mpr h3)]
          simp only [pfIn01, decide_eq_true_eq]
          exact ⟨h2, h3⟩
    · rw [if_neg (not_lt.mpr h1)]
      dsimp only
      simp only [decide_eq_true_eq]
      rcases lt_or_le q 0 with h2 | h2
      · rw [if_pos h2]; rfl
      · rw [if_neg (not_lt.mpr h2), if_neg (not_lt.mpr h1)]
        simp only [pfIn01, decide_eq_true_eq]
        exact ⟨h2, h1⟩

lemma strClamp_in01 (x : PFloat) :
    pfIn01 (pymax (.num 0) (pymin (.num 1) (if PFloat.gtB x (.num 1) then x.div100 else x)))
      = true := by
  cases x with
  | nan => rfl
  | inf => rfl
  | ninf => rfl
  | num q =>
    simp only [PFloat.gtB, PFloat.ltB, PFloat.div100, pymin, pymax, ratDiv100_eq,
      decide_eq_true_eq]
    rcases lt_or_le 1 q with h1 | h1
    · rw [if_pos h1]
      dsimp only
      simp only [decide_eq_true_eq]
      rcases lt_or_le (q / 100) 1 with h2 | h2
      · rw [if_pos h2]
        dsimp only
        simp only [decide_eq_true_eq]
        rcases lt_or_le 0 (q / 100) with h3 | h3
        · rw [if_pos h3]
          simp only [pfIn01, decide_eq_true_eq]
          exact ⟨le_of_lt h3, le_of_lt h2⟩
        · rw [if_neg (not_lt.mpr h3)]; rfl
      · rw [if_neg (not_lt.mpr h2)]
        dsimp only
        simp only [decide_eq_true_eq]
        rw [if_pos (by norm_num : (0:ℚ) < 1)]
        rfl
    · rw [if_neg (not_lt.mpr h1)]
      dsimp only
      simp only [decide_eq_true_eq]
      rcases lt_or_le q 1 with h2 | h2
      · rw [if_pos h2]
        dsimp only
        simp only [decide_eq_true_eq]
        rcases lt_or_le 0 q with h3 | h3
        · rw [if_pos h3]
          simp only [pfIn01, decide_eq_true_eq]
          exact ⟨le_of_lt h3, le_of_lt h2⟩
        · rw [if_neg (not_lt.mpr h3)]; rfl
      · rw [if_neg (not_lt.mpr h2)]
        dsimp only
        simp only [decide_eq_true_eq]
        rw [if_pos (by norm_num : (0:ℚ) < 1)]
        rfl

lemma normalize_in01 (v : JVal) (hv : v ≠ JVal.nan) :
    pfIn01 (normalize_confidence v) = true := by
  cases v with
  | nan => exact absurd rfl hv
  | intNum n => exact numClamp_in01 (PFloat.num (n : ℚ)) (by simp)
  | floatNum q => exact numClamp_in01 (PFloat.num q) (by simp)
  | bool b => exact numClamp_in01 (PFloat.num (if b then 1 else 0)) (by simp)
  | inf => exact numClamp_in01 PFloat.inf (by simp)
  | ninf => exact numClamp_in01 PFloat.ninf (by simp)
  | null => rfl
  | arr l => rfl
  | obj l => rfl
  | str s =>
    show pfIn01 (match pyFloat (pyStrip s) with
      | none => PFloat.num 0
      | some x =>
        pymax (.num 0) (pymin (.num 1) (if PFloat.gtB x (.num 1) then x.div100 else x))) = true
    cases pyFloat (pyStrip s) with
    | none => rfl
    | some x => exact strClamp_in01 x

/-- The text after the first colon of a line (split(colon, 1) index 1). -/
def afterFirstColon (line : String) : String :=
  match splitOnce ':' line.toList with
  | some pr => String.mk pr.2
  | none => ""

lemma parse_response_conf (s : String) (r : AnalysisResult)
    (h : parse_response s = .ok r) :
    pfIn01 r.confidence = true ∨ r.confidence = .nan := by
  have hdisj : ∀ v : JVal, pfIn01 (normalize_confidence v) = true ∨
      normalize_confidence v = .nan := by
    intro v
    by_cases hv : v = JVal.nan
    · subst hv; right; rfl
    · left; exact normalize_in01 v hv
  cases hex : extract_json_object s with
  | error e =>
    simp only [parse_response, hex] at h
    exact absurd h (by simp)
  | ok data =>
    simp only [parse_response, hex] at h
    split_ifs at h <;>
      (injection h with h; rw [← h]) <;>
      first
        | exact hdisj _
        | (left; rfl)

lemma stepAttempt_conf (backend : ℕ → Except String String) (i : ℕ) (r : AnalysisResult)
    (h : (stepAttempt backend i).1 = .ok r) :
    pfIn01 r.confidence = true ∨ r.confidence = .nan := by
  simp only [stepAttempt] at h
  cases hb : backend i with
  | error e => rw [hb] at h; exact absurd h (by simp)
  | ok resp =>
    rw [hb] at h
    by_cases hraw : (pyStrip resp).isEmpty
    · simp only [hraw, if_true] at h
      exact absurd h (by simp)
    · simp only [hraw, if_false] at h
      cases hp : parse_response (pyStrip resp) with
      | error e => rw [hp] at h; exact absurd h (by simp)
      | ok r0 =>
        rw [hp] at h
        injection h with h
        have := parse_response_conf (pyStrip resp) r0 hp
        rw [← h]
        exact this

lemma analyzeGo_conf (backend : ℕ → Except String String) (L : List ℕ)
    (le : Option String) (lr : String) :
    pfIn01 (ollamaAnalyzeGo backend L le lr).confidence = true ∨
      (ollamaAnalyzeGo backend L le lr).confidence = .nan := by
  induction L generalizing le lr with
  | nil => left; rfl
  | cons i rest ih =>
    simp only [ollamaAnalyzeGo]
    cases hs : stepAttempt backend i with
    | mk res rawOpt =>
      cases res with
      | ok r =>
        have h1 : (stepAttempt backend i).1 = .ok r := by rw [hs]
        exact stepAttempt_conf backend i r h1
      | error e => exact ih _ _

/-- C4 amended: the Ollama normalization clamps the confidence into the unit
interval for every parsed value except the numeric NaN literal, which alone
passes through as NaN; the returned result of analyze therefore always
carries an in-range confidence or that NaN; the Gemini line parser stores
the float it parsed from the CONFIDENCE line unchanged (default one half),
applying no clamping at all. -/
theorem c4_amended_confidence_clamping :
    (∀ v : JVal, pfIn01 (normalize_confidence v) = true ∨
      normalize_confidence v = .nan) ∧
    (∀ v : JVal, normalize_confidence v = .nan ↔ v = .nan) ∧
    (∀ (backend : ℕ → Except String String) (m : ℕ),
      pfIn01 (ollamaAnalyze backend m).confidence = true ∨
        (ollamaAnalyze backend m).confidence = .nan) ∧
    (∀ (acc : AnalysisResult) (line : String),
      (geminiLineUpdate acc line).confidence = acc.confidence ∨
      (geminiLineUpdate acc line).confidence = .num (mkRat 1 2) ∨
      pyFloat (pyStrip (afterFirstColon (pyStrip line)))
        = some (geminiLineUpdate acc line).confidence) := by
  refine ⟨?_, ?_, ?_, ?_⟩
  · intro v
    by_cases hv : v = JVal.nan
    · subst hv; right; rfl
    · left; exact normalize_in01 v hv
  · intro v
    constructor
    · intro h
      by_contra hv
      have := normalize_in01 v hv
      rw [h] at this
      exact Bool.noConfusion this
    · rintro rfl; rfl
  · intro backend m
    exact analyzeGo_conf backend (List.range (m + 1)) none ""
  · intro acc line
    simp only [geminiLineUpdate]
    split_ifs
    · cases splitOnce ':' (pyStrip line).toList <;> left <;> rfl
    · cases splitOnce ':' (pyStrip line).toList <;> left <;> rfl
    · cases hsp : splitOnce ':' (pyStrip line).toList with
      | none => left; rfl
      | some pr =>
        dsimp only
        cases hpf : pyFloat (pyStrip (String.mk pr.2)) with
        | none => right; left; rfl
        | some x =>
          right; right
          simp only [afterFirstColon, hsp]
          exact hpf
    · cases splitOnce ':' (pyStrip line).toList <;> left <;> rfl
    · left; rfl

/-- C4 counterexample: the claim fails on the Gemini backend — a response
whose CONFIDENCE line carries 5.0 yields a returned confidence of five,
outside the unit interval and not clamped. -/
theorem c4_gemini_unclamped_counterexample :
    (geminiAnalyze (.ok "CONFIDENCE: 5.0") true).confidence = PFloat.num (mkRat 5 1) ∧
    pfIn01 (geminiAnalyze (.ok "CONFIDENCE: 5.0") true).confidence = false ∧
    PFloat.leB (geminiAnalyze (.ok "CONFIDENCE: 5.0") true).confidence (PFloat.num 1)
      = false := by
  refine ⟨by decide, by decide, by decide⟩

/-! ## Claim C5: retry exhaustion degrades to a review result -/

def exceptErr : Except String AnalysisResult → Option String
  | .error e => some e
  | .ok _ => none

lemma analyzeGo_all_err (backend : ℕ → Except String String) (L : List ℕ) (i : ℕ) :
    ∀ (le : Option String) (lr : String),
    (∀ j ∈ L ++ [i], (exceptErr (stepAttempt backend j).1).isSome = true) →
    ∃ e lr2, (stepAttempt backend i).1 = .error e ∧
      ollamaAnalyzeGo backend (L ++ [i]) le lr = fallbackResult (some e) lr2 := by
  induction L with
  | nil =>
    intro le lr hall
    have hi := hall i (by simp)
    simp only [List.nil_append, ollamaAnalyzeGo]
    cases hs : stepAttempt backend i with
    | mk res rawOpt =>
      cases res with
      | ok r =>
        rw [hs] at hi
        exact absurd hi (by simp [exceptErr])
      | error e =>
        exact ⟨e, rawOpt.getD lr, rfl, rfl⟩
  | cons a L ih =>
    intro le lr hall
    have ha := hall a (by simp)
    simp only [List.cons_append, ollamaAnalyzeGo]
    cases hs : stepAttempt backend a with
    | mk res rawOpt =>
      cases res with
      | ok r =>
        rw [hs] at ha
        exact absurd ha (by simp [exceptErr])
      | error ea =>
        exact ih (some ea) (rawOpt.getD lr) (fun j hj => hall j (List.mem_cons_of_mem a hj))

/-- C5: when every attempt fails (backend error, blank response, or parse
failure), analyze returns — rather than raising — a result with category
review, confidence zero, empty destination, and reasoning carrying the
error of the last attempt. -/
theorem c5_retry_exhaustion_degrades :
    ∀ (backend : ℕ → Except String String) (m : ℕ),
      (∀ i, i ≤ m → (exceptErr (stepAttempt backend i).1).isSome = true) →
      (ollamaAnalyze backend m).category = "review" ∧
      (ollamaAnalyze backend m).confidence = .num 0 ∧
      (ollamaAnalyze backend m).forward_to = "" ∧
      ∃ e, (stepAttempt backend m).1 = .error e ∧
        (ollamaAnalyze backend m).reasoning = "LLM/parse error after retries: " ++ e := by
  intro backend m h
  have hall : ∀ j ∈ List.range m ++ [m],
      (exceptErr (stepAttempt backend j).1).isSome = true := by
    intro j hj
    rcases List.mem_append.mp hj with hj | hj
    · exact h j (Nat.le_of_lt (List.mem_range.mp hj))
    · rw [List.mem_singleton.mp hj]
      exact h m (Nat.le_refl m)
  obtain ⟨e, lr2, hstep, hgo⟩ := analyzeGo_all_err backend (List.range m) m none "" hall
  have : ollamaAnalyze backend m = fallbackResult (some e) lr2 := by
    rw [ollamaAnalyze, List.range_succ]
    exact hgo
  rw [this]
  exact ⟨rfl, rfl, rfl, e, hstep, rfl⟩

/-- C5 witness: a backend that always raises; after three attempts the
degraded review result is returned. -/
theorem c5_retry_exhaustion_degrades_witness :
    (ollamaAnalyze (fun _ => .error "connection refused") 2).category = "review" ∧
    (ollamaAnalyze (fun _ => .error "connection refused") 2).forward_to = "" := by
  have h := c5_retry_exhaustion_degrades (fun _ => .error "connection refused") 2 (by decide)
  exact ⟨h.1, h.2.2.1⟩

/-! ## Claim C8: JSON extraction from surrounded text -/

lemma dropWhile_append_all {p : Char → Bool} {xs : List Char} (ys : List Char)
    (h : ∀ x ∈ xs, p x = true) : (xs ++ ys).dropWhile p = ys.dropWhile p := by
  induction xs with
  | nil => rfl
  | cons a t ih =>
    simp only [List.cons_append, List.dropWhile_cons, h a (by simp)]
    exact ih (fun x hx => h x (List.mem_cons_of_mem a hx))

lemma dropWhile_cons_head (p : Char → Bool) (c : Char) (l : List Char)
    (h : p c = false) : (c :: l).dropWhile p = c :: l := by
  simp [List.dropWhile_cons, h]

lemma dropWhile_append_mid (p : Char → Bool) (px : List Char) (oh : Char) (rest : List Char)
    (hh : p oh = false) :
    (px ++ oh :: rest).dropWhile p = px.dropWhile p ++ oh :: rest := by
  induction px with
  | nil => simp [List.dropWhile_cons, hh]
  | cons c t ih =>
    cases hc : p c with
    | true =>
      simp only [List.cons_append, List.dropWhile_cons, hc, if_true]
      exact ih
    | false =>
      simp only [List.cons_append, List.dropWhile_cons, hc, Bool.false_eq_true, if_false,
        List.cons_append]

lemma eq_append_getLastQ {l : List Char} {c : Char} (h : l.getLast? = some c) :
    ∃ init, l = init ++ [c] := by
  induction l with
  | nil => simp at h
  | cons a t ih =>
    cases t with
    | nil =>
      simp only [List.getLast?_singleton, Option.some.injEq] at h
      exact ⟨[], by subst h; rfl⟩
    | cons b t2 =>
      rw [List.getLast?_cons_cons] at h
      obtain ⟨init, hinit⟩ := ih h
      exact ⟨a :: init, by rw [List.cons_append, ← hinit]⟩

lemma untilLastClose_none {l : List Char} (h : rbrace ∉ l) : untilLastClose l = none := by
  induction l with
  | nil => rfl
  | cons c t ih =>
    have ht : untilLastClose t = none := ih (fun hm => h (List.mem_cons_of_mem c hm))
    simp only [untilLastClose, ht]
    rw [if_neg (fun hc : c = rbrace => h (by rw [hc]; exact List.mem_cons_self _ _))]

lemma untilLastClose_append {as zs : List Char} (h : as.getLast? = some rbrace)
    (hz : rbrace ∉ zs) : untilLastClose (as ++ zs) = some as := by
  induction as with
  | nil => simp at h
  | cons a t ih =>
    cases t with
    | nil =>
      simp only [List.getLast?_singleton, Option.some.injEq] at h
      subst h
      have hz2 : untilLastClose zs = none := untilLastClose_none hz
      show (match untilLastClose zs with
        | some t => some (rbrace :: t)
        | none => if rbrace = rbrace then some [rbrace] else none) = some [rbrace]
      rw [hz2]
      simp
    | cons b t2 =>
      rw [List.getLast?_cons_cons] at h
      have h2 := ih h
      show (match untilLastClose ((b :: t2) ++ zs) with
        | some t => some (a :: t)
        | none => if a = rbrace then some [a] else none) = some (a :: b :: t2)
      rw [h2]

lemma braceSpan_append {xs ot zs : List Char}
    (hx : lbrace ∉ xs) (hlast : (lbrace :: ot).getLast? = some rbrace) (hz : rbrace ∉ zs) :
    braceSpan (xs ++ (lbrace :: ot) ++ zs) = some (lbrace :: ot) := by
  have hot : ot.getLast? = some rbrace := by
    cases ot with
    | nil =>
      simp only [List.getLast?_singleton, Option.some.injEq] at hlast
      exact absurd hlast (by decide)
    | cons b t2 => rwa [List.getLast?_cons_cons] at hlast
  have h1 : (xs ++ (lbrace :: ot) ++ zs).dropWhile (fun c => !(c = lbrace))
      = lbrace :: (ot ++ zs) := by
    rw [List.append_assoc]
    rw [dropWhile_append_all _ (fun x hxm => by
      simp only [Bool.not_eq_true']
      exact decide_eq_false (fun he => hx (he ▸ hxm)))]
    simp [List.dropWhile_cons]
  simp only [braceSpan, h1]
  rw [untilLastClose_append hot hz]

lemma stripRight_append_last (init : List Char) (c : Char) (hc : isPyWs c = false) :
    stripRight (init ++ [c]) = init ++ [c] := by
  rw [stripRight]
  rw [show (init ++ [c]).reverse = c :: init.reverse by simp]
  rw [dropWhile_cons_head _ _ _ hc]
  simp

lemma stripRight_mid (l sx : List Char) (c : Char) (hc : isPyWs c = false) :
    stripRight ((l ++ [c]) ++ sx) = (l ++ [c]) ++ stripRight sx := by
  rw [stripRight]
  rw [show ((l ++ [c]) ++ sx).reverse = sx.reverse ++ c :: l.reverse by simp]
  rw [dropWhile_append_mid _ sx.reverse c l.reverse hc]
  rw [stripRight]
  simp

lemma stripList_id {l : List Char} (hh : ∀ c, l.head? = some c → isPyWs c = false)
    (hl : ∀ c, l.getLast? = some c → isPyWs c = false) : stripList l = l := by
  cases l with
  | nil => rfl
  | cons a t =>
    have ha := hh a rfl
    cases hgl : (a :: t).getLast? with
    | none => simp at hgl
    | some c =>
      obtain ⟨init, hinit⟩ := eq_append_getLastQ hgl
      rw [stripList, stripLeft, dropWhile_cons_head _ _ _ ha, hinit,
        stripRight_append_last init c (hl c hgl)]

lemma stripList_decomp (px sx : List Char) (oh : Char) (ot : List Char)
    (hoh : isPyWs oh = false)
    (hl : ∀ c, (oh :: ot).getLast? = some c → isPyWs c = false) :
    stripList (px ++ (oh :: ot) ++ sx) = stripLeft px ++ (oh :: ot) ++ stripRight sx := by
  cases hgl : (oh :: ot).getLast? with
  | none => simp at hgl
  | some c =>
    obtain ⟨init, hinit⟩ := eq_append_getLastQ hgl
    have hc := hl c hgl
    rw [stripList, stripLeft]
    rw [show px ++ (oh :: ot) ++ sx = px ++ oh :: (ot ++ sx) by simp]
    rw [dropWhile_append_mid _ px oh (ot ++ sx) hoh]
    rw [show px.dropWhile isPyWs ++ oh :: (ot ++ sx)
        = (px.dropWhile isPyWs ++ (oh :: ot)) ++ sx by simp]
    rw [hinit]
    rw [show px.dropWhile isPyWs ++ (init ++ [c]) = (px.dropWhile isPyWs ++ init) ++ [c] by simp]
    rw [stripRight_mid _ sx c hc]
    rw [stripLeft]
    simp

def noBraceStr (s : String) : Bool := s.toList.all (fun c => !(c = lbrace) && !(c = rbrace))

def jGetStr (r : Except String JVal) (k : String) : Option String :=
  match r with
  | .ok (JVal.obj fs) =>
    match objGet fs k with
    | some (JVal.str s) => some s
    | _ => none
  | _ => none

lemma noBraceStr_not_mem {s : String} (h : noBraceStr s = true) :
    lbrace ∉ s.toList ∧ rbrace ∉ s.toList := by
  rw [noBraceStr, List.all_eq_true] at h
  constructor
  · intro hm
    have := h lbrace hm
    simp at this
  · intro hm
    have := h rbrace hm
    simp at this

lemma mem_stripLeft {l : List Char} {c : Char} (h : c ∈ stripLeft l) : c ∈ l :=
  (List.dropWhile_sublist isPyWs).subset h

lemma mem_stripRight {l : List Char} {c : Char} (h : c ∈ stripRight l) : c ∈ l := by
  have hsub : List.Sublist (stripRight l) l := by
    have h2 := (List.dropWhile_sublist (l := l.reverse) isPyWs).reverse
    rwa [List.reverse_reverse] at h2
  exact hsub.subset h

lemma toList_append3 (a b c : String) :
    (a ++ b ++ c).toList = a.toList ++ b.toList ++ c.toList := by
  simp [String.toList, String.data_append]

/-- C8 amended: extraction from prefix plus object plus suffix agrees with
extraction from the bare object, for brace-free prefix and suffix, provided
the sanitizer leaves the object text unchanged (the counterexample shows the
original claim fails when it does not: the trailing-comma regex and
smart-quote replacement also rewrite text inside JSON string literals). -/
theorem c8_amended_extraction_invariant :
    ∀ (px o sx : String) (v : JVal),
      noBraceStr px = true → noBraceStr sx = true →
      headIs o.toList lbrace = true → lastIs o.toList rbrace = true →
      loads o = some v → sanitizeL o.toList = o.toList →
      extract_json_object (px ++ o ++ sx) = .ok v ∧ extract_json_object o = .ok v := by
  intro px o sx v hpx hsx hhead hlast hload hsan
  have hpx1 := noBraceStr_not_mem hpx
  have hsx1 := noBraceStr_not_mem hsx
  have hh : o.toList.head? = some lbrace := of_decide_eq_true hhead
  have hgl : o.toList.getLast? = some rbrace := of_decide_eq_true hlast
  obtain ⟨ot, hot⟩ : ∃ t, o.toList = lbrace :: t := by
    cases hcl : o.toList with
    | nil => rw [hcl] at hh; exact absurd hh (by simp)
    | cons a t =>
      rw [hcl] at hh
      simp only [List.head?_cons, Option.some.injEq] at hh
      exact ⟨t, by rw [hh]⟩
  have hlc : ∀ c, o.toList.getLast? = some c → isPyWs c = false := by
    intro c hc
    rw [hgl] at hc
    injection hc with hc
    rw [← hc]
    rfl
  have hhc : ∀ c, o.toList.head? = some c → isPyWs c = false := by
    intro c hc
    rw [hh] at hc
    injection hc with hc
    rw [← hc]
    rfl
  have hostrip : stripList o.toList = o.toList := stripList_id hhc hlc
  have hbare : extract_json_object o = .ok v := by
    simp only [extract_json_object, hostrip, hhead, hlast, Bool.and_self, if_true]
    rw [show loadsL o.toList = some v from hload]
  refine ⟨?_, hbare⟩
  have hdecomp : stripList (px ++ o ++ sx).toList
      = stripLeft px.toList ++ o.toList ++ stripRight sx.toList := by
    rw [toList_append3, hot]
    exact stripList_decomp px.toList sx.toList lbrace ot rfl (by rw [← hot]; exact hlc)
  have hxs : lbrace ∉ stripLeft px.toList := fun hm => hpx1.1 (mem_stripLeft hm)
  have hzs : rbrace ∉ stripRight sx.toList := fun hm => hsx1.2 (mem_stripRight hm)
  have hspan : braceSpan (stripLeft px.toList ++ o.toList ++ stripRight sx.toList)
      = some o.toList := by
    rw [hot]
    exact braceSpan_append hxs (by rw [← hot]; exact hgl) hzs
  have hslow : extractSlow (stripLeft px.toList ++ o.toList ++ stripRight sx.toList)
      = .ok v := by
    simp only [extractSlow, hspan, hostrip, hsan]
    rw [show loadsL o.toList = some v from hload]
  simp only [extract_json_object, hdecomp]
  cases hxe : stripLeft px.toList with
  | nil =>
    cases hze : stripRight sx.toList with
    | nil =>
      simp only [List.nil_append, List.append_nil]
      simp only [hhead, hlast, Bool.and_self, if_true]
      rw [show loadsL o.toList = some v from hload]
    | cons d zs2 =>
      have hlastIs : lastIs ([] ++ o.toList ++ (d :: zs2)) rbrace = false := by
        have h1 : ([] ++ o.toList ++ (d :: zs2)).getLast? = (d :: zs2).getLast? := by
          rw [List.nil_append]
          exact List.getLast?_append_of_ne_nil o.toList (by simp)
        obtain ⟨c2, hc2⟩ : ∃ c2, (d :: zs2).getLast? = some c2 := by
          cases hzz : (d :: zs2).getLast? with
          | none => simp at hzz
          | some c2 => exact ⟨c2, rfl⟩
        have hc2mem : c2 ∈ (d :: zs2) := by
          obtain ⟨init, hinit⟩ := eq_append_getLastQ hc2
          rw [hinit]
          simp
        have hc2ne : ¬(c2 = rbrace) := by
          intro he
          rw [he] at hc2mem
          rw [← hze] at hc2mem
          exact hzs hc2mem
        rw [lastIs, h1, hc2]
        simp [hc2ne]
      simp only [hlastIs, Bool.and_false, Bool.false_eq_true, if_false]
      rw [hxe, hze] at hslow
      exact hslow
  | cons c xs2 =>
    have hcne : ¬(c = lbrace) := by
      intro he
      rw [he] at hxe
      exact hxs (by rw [hxe]; simp)
    have hheadIs : headIs ((c :: xs2) ++ o.toList ++ stripRight sx.toList) lbrace = false := by
      rw [headIs]
      simp [hcne]
    simp only [hheadIs, Bool.false_and, Bool.false_eq_true, if_false]
    rw [hxe] at hslow
    exact hslow

/-- C8 witness: a concrete object with brace-free surrounding text. -/
theorem c8_amended_extraction_invariant_witness :
    extract_json_object ("pre " ++ "\x7b\"a\": 1\x7d" ++ " post")
      = .ok (JVal.obj [("a", JVal.intNum 1)]) ∧
    extract_json_object "\x7b\"a\": 1\x7d" = .ok (JVal.obj [("a", JVal.intNum 1)]) :=
  c8_amended_extraction_invariant "pre " "\x7b\"a\": 1\x7d" " post"
    (JVal.obj [("a", JVal.intNum 1)]) (by decide) (by decide) (by decide) (by decide)
    rfl (by decide)

def c8obj : String := "\x7b\"a\": \", \x7d\"\x7d"

/-- C8 counterexample: the valid JSON object whose string value holds a
comma, a space and a closing brace parses differently bare (fast path, no
sanitizing) and embedded in prefix and suffix text (regex path, sanitized):
the sanitizer deletes the comma inside the string literal. -/
theorem c8_sanitizer_counterexample :
    noBraceStr "x " = true ∧ noBraceStr " y" = true ∧
    headIs c8obj.toList lbrace = true ∧ lastIs c8obj.toList rbrace = true ∧
    (loads c8obj).isSome = true ∧
    jGetStr (extract_json_object c8obj) "a" = some ", \x7d" ∧
    jGetStr (extract_json_object ("x " ++ c8obj ++ " y")) "a" = some "\x7d" ∧
    (", \x7d" : String) ≠ "\x7d" := by
  refine ⟨by decide, by decide, by decide, by decide, by decide, by decide, by decide, by decide⟩

/-! ## Lifecycle state helper lemmas and the lifecycle claims -/

lemma find?_append_left {α : Type} {p : α → Bool} {l1 : List α} {a : α} (l2 : List α)
    (h : l1.find? p = some a) : (l1 ++ l2).find? p = some a := by
  induction l1 with
  | nil => simp at h
  | cons x xs ih =>
    rw [List.find?_cons] at h
    rw [List.cons_append, List.find?_cons]
    cases hx : p x with
    | true => rw [hx] at h; exact h
    | false => rw [hx] at h; exact ih h

lemma find?_append_none {α : Type} {p : α → Bool} {l1 : List α} (l2 : List α)
    (h : l1.find? p = none) : (l1 ++ l2).find? p = l2.find? p := by
  induction l1 with
  | nil => rfl
  | cons x xs ih =>
    rw [List.find?_cons] at h
    rw [List.cons_append, List.find?_cons]
    cases hx : p x with
    | true => rw [hx] at h; exact absurd h (by simp)
    | false => rw [hx] at h; exact ih h

lemma find?_append_isSome {α : Type} (p : α → Bool) (l : List α) (a : α) (ha : p a = true) :
    ((l ++ [a]).find? p).isSome = true := by
  cases hf : l.find? p with
  | some b => rw [find?_append_left _ hf]; rfl
  | none =>
    rw [find?_append_none _ hf, List.find?_cons, ha]
    rfl

lemma find?_filter_not {α : Type} (p : α → Bool) (l : List α) :
    (l.filter (fun x => !(p x))).find? p = none := by
  induction l with
  | nil => rfl
  | cons x xs ih =>
    rw [List.filter_cons]
    cases hx : p x with
    | true =>
      rw [if_neg (by simp [hx])]
      exact ih
    | false =>
      rw [if_pos (by simp [hx]), List.find?_cons, hx]
      exact ih

lemma find?_none_of_fresh (l : List EmailStatusR) (u : ℤ) (h : u ∉ uidsOf l) :
    l.find? (fun r => r.uid == u) = none := by
  induction l with
  | nil => rfl
  | cons r rs ih =>
    have h1 : (r.uid == u) = false := by
      simp only [beq_eq_false_iff_ne, ne_eq]
      intro he
      exact h (by rw [← he]; exact List.mem_cons_self _ _)
    rw [List.find?_cons, h1]
    exact ih (fun hm => h (List.mem_cons_of_mem _ hm))

lemma find?_updateFirst_ne (u v : ℤ) (huv : ¬(u = v)) (f : EmailStatusR → EmailStatusR)
    (hf : ∀ r, (f r).uid = r.uid) (l : List EmailStatusR) :
    (updateFirst (fun r => r.uid == v) f l).find? (fun r => r.uid == u)
      = l.find? (fun r => r.uid == u) := by
  induction l with
  | nil => rfl
  | cons x xs ih =>
    rw [updateFirst]
    by_cases hx : x.uid = v
    · rw [if_pos (by simp [hx])]
      have h1 : (x.uid == u) = false := by
        simp only [beq_eq_false_iff_ne, ne_eq]
        exact fun he => huv (by rw [← he, hx])
      have h2 : ((f x).uid == u) = false := by rw [hf]; exact h1
      rw [List.find?_cons, h2, List.find?_cons, h1]
    · rw [if_neg (by simp [hx])]
      rw [List.find?_cons, List.find?_cons]
      cases hxu : (x.uid == u) with
      | true => rfl
      | false => exact ih

lemma find?_updateFirst_self (u : ℤ) (f : EmailStatusR → EmailStatusR)
    (hf : ∀ r, (f r).uid = r.uid) (l : List EmailStatusR) :
    (updateFirst (fun r => r.uid == u) f l).find? (fun r => r.uid == u)
      = (l.find? (fun r => r.uid == u)).map f := by
  induction l with
  | nil => rfl
  | cons x xs ih =>
    rw [updateFirst]
    by_cases hx : x.uid = u
    · rw [if_pos (by simp [hx])]
      have h1 : (x.uid == u) = true := by simp [hx]
      have h2 : ((f x).uid == u) = true := by rw [hf]; exact h1
      rw [List.find?_cons, h2, List.find?_cons, h1]
      rfl
    · rw [if_neg (by simp [hx])]
      have h1 : (x.uid == u) = false := by simp [hx]
      rw [List.find?_cons, h1, List.find?_cons, h1]
      exact ih

lemma optMap_isSome {α β : Type} (f : α → β) (o : Option α) :
    (o.map f).isSome = o.isSome := by
  cases o <;> rfl

lemma pendingGet_erase (pr : List (ℤ × PendingEntry)) (u : ℤ) :
    pendingGet (pendingErase pr u) u = none := by
  rw [pendingGet, pendingErase, find?_filter_not]
  rfl

lemma pendingGet_append_self (pr : List (ℤ × PendingEntry)) (u : ℤ) (v : PendingEntry) :
    (pendingGet (pr ++ [(u, v)]) u).isSome = true := by
  rw [pendingGet, optMap_isSome]
  exact find?_append_isSome _ pr (u, v) (by simp)

lemma pendingGet_append_left {pr : List (ℤ × PendingEntry)} {u : ℤ}
    (l2 : List (ℤ × PendingEntry))
    (h : (pendingGet pr u).isSome = true) : (pendingGet (pr ++ l2) u).isSome = true := by
  rw [pendingGet, optMap_isSome] at h ⊢
  cases hf : pr.find? (fun kv => kv.1 == u) with
  | none => rw [hf] at h; simp at h
  | some kv => rw [find?_append_left l2 hf]; rfl

lemma find?_map_overwrite (pr : List (ℤ × PendingEntry)) (v : ℤ) (entry : PendingEntry)
    (u : ℤ) (h : ¬(u = v)) :
    (pr.map (fun kv => if kv.1 == v then (v, entry) else kv)).find? (fun kv => kv.1 == u)
      = pr.find? (fun kv => kv.1 == u) := by
  induction pr with
  | nil => rfl
  | cons kv pr ih =>
    rw [List.map_cons]
    by_cases hk : kv.1 = v
    · rw [if_pos (by simp [hk])]
      have h1 : (kv.1 == u) = false := by
        simp only [beq_eq_false_iff_ne, ne_eq]
        exact fun he => h (by rw [← he, hk])
      have h2 : (((v, entry) : ℤ × PendingEntry).1 == u) = false := by
        simp only [beq_eq_false_iff_ne, ne_eq]
        exact fun he => h he.symm
      rw [List.find?_cons, h2, List.find?_cons, h1]
      exact ih
    · rw [if_neg (by simp [hk])]
      rw [List.find?_cons, List.find?_cons]
      cases hku : (kv.1 == u) with
      | true => rfl
      | false => exact ih

lemma pendingGet_set_ne (pr : List (ℤ × PendingEntry)) (v : ℤ) (entry : PendingEntry)
    (u : ℤ) (h : ¬(u = v)) :
    pendingGet (pendingSet pr v entry) u = pendingGet pr u := by
  rw [pendingSet]
  by_cases hp : (pr.find? (fun kv => kv.1 == v)).isSome = true
  · rw [if_pos hp, pendingGet, pendingGet, find?_map_overwrite pr v entry u h]
  · rw [if_neg hp, pendingGet, pendingGet]
    congr 1
    have h2 : (((v, entry) : ℤ × PendingEntry).1 == u) = false := by
      simp only [beq_eq_false_iff_ne, ne_eq]
      exact fun he => h he.symm
    cases hf : pr.find? (fun kv => kv.1 == u) with
    | some kv => exact find?_append_left _ hf
    | none =>
      rw [find?_append_none _ hf, List.find?_cons, h2]
      rfl

lemma rehydrateStep_emailsData (st : DashState) (uids : List ℤ) (e : EmailR) :
    (rehydrateStep (st, uids) e).1.emailsData
      = if uids.contains e.uid then st.emailsData
        else st.emailsData ++ [mkReviewStatus e] := by
  rw [rehydrateStep]
  dsimp only
  by_cases hc : uids.contains e.uid = true
  · simp only [hc, Bool.not_true, Bool.false_eq_true, if_false, if_true]
    split <;> rfl
  · have hc2 : uids.contains e.uid = false := by revert hc; cases uids.contains e.uid <;> simp
    simp only [hc2, Bool.not_false, if_true, Bool.false_eq_true, if_false]
    split <;> rfl

lemma rehydrateStep_uids (st : DashState) (uids : List ℤ) (e : EmailR) :
    (rehydrateStep (st, uids) e).2
      = if uids.contains e.uid then uids else uids ++ [e.uid] := by
  rw [rehydrateStep]
  dsimp only
  by_cases hc : uids.contains e.uid = true
  · simp only [hc, Bool.not_true, Bool.false_eq_true, if_false, if_true]
  · have hc2 : uids.contains e.uid = false := by revert hc; cases uids.contains e.uid <;> simp
    simp only [hc2, Bool.not_false, if_true, Bool.false_eq_true, if_false]

lemma rehydrateStep_pending (st : DashState) (uids : List ℤ) (e : EmailR) :
    (rehydrateStep (st, uids) e).1.pendingReviews
      = if (pendingGet st.pendingReviews e.uid).isSome then st.pendingReviews
        else st.pendingReviews ++ [(e.uid, (⟨e, none⟩ : PendingEntry))] := by
  rw [rehydrateStep]
  dsimp only
  by_cases hc : uids.contains e.uid = true
  · simp only [hc, Bool.not_true, Bool.false_eq_true, if_false, if_true]
    split <;> rfl
  · have hc2 : uids.contains e.uid = false := by revert hc; cases uids.contains e.uid <;> simp
    simp only [hc2, Bool.not_false, if_true, Bool.false_eq_true, if_false]
    split <;> rfl

lemma rehydrateGo_uids (revs : List EmailR) (st : DashState) (uids : List ℤ)
    (h : uids = uidsOf st.emailsData) :
    (revs.foldl rehydrateStep (st, uids)).2
      = uidsOf (revs.foldl rehydrateStep (st, uids)).1.emailsData := by
  induction revs generalizing st uids with
  | nil => exact h
  | cons e rest ih =>
    rw [List.foldl_cons]
    have hstep : (rehydrateStep (st, uids) e).2
        = uidsOf (rehydrateStep (st, uids) e).1.emailsData := by
      rw [rehydrateStep_uids, rehydrateStep_emailsData]
      by_cases hc : uids.contains e.uid = true
      · rw [if_pos hc, if_pos hc]; exact h
      · rw [if_neg hc, if_neg hc, uidsOf, List.map_append, ← uidsOf, ← h]
        rfl
    rcases hsp : rehydrateStep (st, uids) e with ⟨st1, uids1⟩
    rw [hsp] at hstep
    exact ih st1 uids1 hstep

lemma find?_after_rehydrateGo (revs : List EmailR) (st : DashState) (uids : List ℤ)
    (u : ℤ) (rec : EmailStatusR)
    (h : st.emailsData.find? (fun r => r.uid == u) = some rec) :
    (revs.foldl rehydrateStep (st, uids)).1.emailsData.find? (fun r => r.uid == u)
      = some rec := by
  induction revs generalizing st uids with
  | nil => exact h
  | cons e rest ih =>
    rw [List.foldl_cons]
    rcases hsp : rehydrateStep (st, uids) e with ⟨st1, uids1⟩
    have hed : st1.emailsData = (rehydrateStep (st, uids) e).1.emailsData := by rw [hsp]
    have hstep : st1.emailsData.find? (fun r => r.uid == u) = some rec := by
      rw [hed, rehydrateStep_emailsData]
      split
      · exact h
      · exact find?_append_left _ h
    exact ih st1 uids1 hstep

lemma pending_after_rehydrateGo (revs : List EmailR) (st : DashState) (uids : List ℤ)
    (u : ℤ) (h : (pendingGet st.pendingReviews u).isSome = true) :
    (pendingGet (revs.foldl rehydrateStep (st, uids)).1.pendingReviews u).isSome = true := by
  induction revs generalizing st uids with
  | nil => exact h
  | cons e rest ih =>
    rw [List.foldl_cons]
    rcases hsp : rehydrateStep (st, uids) e with ⟨st1, uids1⟩
    have hpd : st1.pendingReviews = (rehydrateStep (st, uids) e).1.pendingReviews := by
      rw [hsp]
    have hstep : (pendingGet st1.pendingReviews u).isSome = true := by
      rw [hpd, rehydrateStep_pending]
      split
      · exact h
      · exact pendingGet_append_left _ h
    exact ih st1 uids1 hstep

lemma rehydrateGo_pending_mem (revs : List EmailR) (e : EmailR) (he : e ∈ revs) :
    ∀ (st : DashState) (uids : List ℤ),
    (pendingGet (revs.foldl rehydrateStep (st, uids)).1.pendingReviews e.uid).isSome = true := by
  induction revs with
  | nil => cases he
  | cons a rest ih =>
    intro st uids
    rcases List.mem_cons.mp he with rfl | he2
    · rw [List.foldl_cons]
      rcases hsp : rehydrateStep (st, uids) e with ⟨st1, uids1⟩
      have hpd : st1.pendingReviews = (rehydrateStep (st, uids) e).1.pendingReviews := by
        rw [hsp]
      have hstep : (pendingGet st1.pendingReviews e.uid).isSome = true := by
        rw [hpd, rehydrateStep_pending]
        split
        · next hcond => exact hcond
        · exact pendingGet_append_self _ _ _
      exact pending_after_rehydrateGo rest st1 uids1 e.uid hstep
    · rw [List.foldl_cons]
      rcases rehydrateStep (st, uids) a with ⟨st1, uids1⟩
      exact ih he2 st1 uids1

/-- Claim C10: when an operator rejects a pending review message and the
move to the Skipped folder fails, the reject still completes: the record is
marked Skipped with needs-review cleared, the pending entry is dropped, the
rejection is logged, no move is issued, and the record does not enter the
Error state. -/
theorem c10_reject_survives_move_failure (uid : ℤ) (st : DashState) (rec : EmailStatusR)
    (hp : (pendingGet st.pendingReviews uid).isSome = true)
    (hr : st.emailsData.find? (fun r => r.uid == uid) = some rec) :
    (reject_email uid false st).2 = [MailOp.logAction uid "rejected"] ∧
    statusOfUid (reject_email uid false st).1 uid = some "Skipped" ∧
    needsReviewOfUid (reject_email uid false st).1 uid = some false ∧
    pendingGet (reject_email uid false st).1.pendingReviews uid = none ∧
    statusOfUid (reject_email uid false st).1 uid ≠ some "Error" := by
  cases hpg : pendingGet st.pendingReviews uid with
  | none => rw [hpg] at hp; simp at hp
  | some entry =>
    have hfind := find?_updateFirst_self uid
      (fun r => { r with status := "Skipped", needs_review := false })
      (fun r => rfl) st.emailsData
    rw [hr] at hfind
    simp only [reject_email, hpg]
    refine ⟨rfl, ?_, ?_, ?_, ?_⟩
    · rw [statusOfUid]
      dsimp only
      rw [hfind]
      rfl
    · rw [needsReviewOfUid]
      dsimp only
      rw [hfind]
      rfl
    · exact pendingGet_erase _ _
    · rw [statusOfUid]
      dsimp only
      rw [hfind]
      simp

lemma rehydrateStep_inv (st : DashState) (uids : List ℤ) (e : EmailR)
    (h : uids = uidsOf st.emailsData) :
    (rehydrateStep (st, uids) e).2 = uidsOf (rehydrateStep (st, uids) e).1.emailsData := by
  rw [rehydrateStep_uids, rehydrateStep_emailsData]
  by_cases hc : uids.contains e.uid = true
  · rw [if_pos hc, if_pos hc]; exact h
  · rw [if_neg hc, if_neg hc, uidsOf, List.map_append, ← uidsOf, ← h]
    rfl

lemma rehydrateStep_uids_mono (st : DashState) (uids : List ℤ) (e : EmailR)
    (u : ℤ) (h : u ∈ uids) : u ∈ (rehydrateStep (st, uids) e).2 := by
  rw [rehydrateStep_uids]
  split
  · exact h
  · exact List.mem_append_left _ h

lemma rehydrateGo_uids_mono (revs : List EmailR) (u : ℤ) :
    ∀ (st : DashState) (uids : List ℤ), u ∈ uids →
    u ∈ (revs.foldl rehydrateStep (st, uids)).2 := by
  induction revs with
  | nil => intro st uids h; exact h
  | cons a rest ih =>
    intro st uids h
    rw [List.foldl_cons]
    rcases hsp : rehydrateStep (st, uids) a with ⟨st1, uids1⟩
    have h1 : u ∈ uids1 := by
      have := rehydrateStep_uids_mono st uids a u h
      rw [hsp] at this
      exact this
    exact ih st1 uids1 h1

lemma rehydrateGo_uid_mem (revs : List EmailR) (e : EmailR) (he : e ∈ revs) :
    ∀ (st : DashState) (uids : List ℤ),
    e.uid ∈ (revs.foldl rehydrateStep (st, uids)).2 := by
  induction revs with
  | nil => cases he
  | cons a rest ih =>
    intro st uids
    rw [List.foldl_cons]
    rcases hsp : rehydrateStep (st, uids) a with ⟨st1, uids1⟩
    rcases List.mem_cons.mp he with rfl | he2
    · have h1 : e.uid ∈ uids1 := by
        have h2 : e.uid ∈ (rehydrateStep (st, uids) e).2 := by
          rw [rehydrateStep_uids]
          split
          · next hc => exact List.mem_of_elem_eq_true hc
          · exact List.mem_append_right _ (List.mem_singleton.mpr rfl)
        rw [hsp] at h2
        exact h2
      exact rehydrateGo_uids_mono rest e.uid st1 uids1 h1
    · exact ih he2 st1 uids1

lemma rehydrateGo_review_status (revs : List EmailR) (u : ℤ) :
    ∀ (st : DashState) (uids : List ℤ),
    uids = uidsOf st.emailsData →
    ((u ∉ uidsOf st.emailsData ∧ ∃ e ∈ revs, e.uid = u) ∨
      (∃ rec, st.emailsData.find? (fun r => r.uid == u) = some rec ∧
        rec.status = "Review" ∧ rec.needs_review = true)) →
    ∃ rec, (revs.foldl rehydrateStep (st, uids)).1.emailsData.find? (fun r => r.uid == u)
        = some rec ∧ rec.status = "Review" ∧ rec.needs_review = true := by
  induction revs with
  | nil =>
    intro st uids _ hok
    rcases hok with ⟨_, ⟨e, he, _⟩⟩ | ⟨rec, hfind, hs, hn⟩
    · cases he
    · exact ⟨rec, hfind, hs, hn⟩
  | cons a rest ih =>
    intro st uids hinv hok
    rw [List.foldl_cons]
    rcases hsp : rehydrateStep (st, uids) a with ⟨st1, uids1⟩
    have hinv1 : uids1 = uidsOf st1.emailsData := by
      have := rehydrateStep_inv st uids a hinv
      rw [hsp] at this
      exact this
    have hed : st1.emailsData = if uids.contains a.uid then st.emailsData
        else st.emailsData ++ [mkReviewStatus a] := by
      have := rehydrateStep_emailsData st uids a
      rw [hsp] at this
      exact this
    rcases hok with ⟨hfresh, ⟨e, he, heq⟩⟩ | ⟨rec, hfind, hs, hn⟩
    · by_cases hau : a.uid = u
      · have hcont : uids.contains a.uid = false := by
          rw [hau, hinv]
          cases hc : (uidsOf st.emailsData).contains u with
          | false => rfl
          | true => exact absurd (List.mem_of_elem_eq_true hc) hfresh
        have hfind1 : st1.emailsData.find? (fun r => r.uid == u)
            = some (mkReviewStatus a) := by
          rw [hed, hcont, if_neg (by simp)]
          rw [find?_append_none _ (find?_none_of_fresh st.emailsData u hfresh)]
          rw [List.find?_cons, show ((mkReviewStatus a).uid == u) = true from by
            simp [mkReviewStatus, hau]]
        exact ih st1 uids1 hinv1 (Or.inr ⟨mkReviewStatus a, hfind1, rfl, rfl⟩)
      · have he2 : e ∈ rest := by
          rcases List.mem_cons.mp he with rfl | h2
          · exact absurd heq hau
          · exact h2
        have hfresh1 : u ∉ uidsOf st1.emailsData := by
          rw [hed]
          split
          · exact hfresh
          · intro hmem
            rw [uidsOf, List.map_append] at hmem
            rcases List.mem_append.mp hmem with h1 | h1
            · exact hfresh h1
            · simp only [List.map_cons, List.map_nil, List.mem_singleton] at h1
              exact hau h1.symm
        exact ih st1 uids1 hinv1 (Or.inl ⟨hfresh1, ⟨e, he2, heq⟩⟩)
    · have hfind1 : st1.emailsData.find? (fun r => r.uid == u) = some rec := by
        rw [hed]
        split
        · exact hfind
        · exact find?_append_left _ hfind
      exact ih st1 uids1 hinv1 (Or.inr ⟨rec, hfind1, hs, hn⟩)

lemma processOne_preserve (R : Router) (sendOk : Bool) (st : DashState) (email : EmailR)
    (u : ℤ) (hne : ¬(u = email.uid)) :
    (processOne R sendOk st email).1.emailsData.find? (fun r => r.uid == u)
        = st.emailsData.find? (fun r => r.uid == u) ∧
    pendingGet (processOne R sendOk st email).1.pendingReviews u
        = pendingGet st.pendingReviews u := by
  rw [processOne]
  dsimp only
  have hstep : ∀ (f : EmailStatusR → EmailStatusR), (∀ r, (f r).uid = r.uid) →
      ∀ (l : List EmailStatusR),
      (updateFirst (fun r => r.uid == email.uid) f l).find? (fun r => r.uid == u)
        = l.find? (fun r => r.uid == u) := by
    intro f hf l
    exact find?_updateFirst_ne u email.uid hne f hf l
  cases hai : (R.decide email.toDict).ai_result with
  | none =>
    dsimp only
    split
    · split
      · refine ⟨?_, rfl⟩
        dsimp only
        rw [hstep]
        exact fun r => rfl
      · refine ⟨?_, rfl⟩
        dsimp only
        rw [hstep]
        exact fun r => rfl
    · refine ⟨?_, pendingGet_set_ne st.pendingReviews email.uid _ u hne⟩
      dsimp only
      rw [hstep]
      exact fun r => rfl
  | some ar =>
    dsimp only
    split
    · split
      · refine ⟨?_, rfl⟩
        dsimp only
        rw [hstep, hstep]
        all_goals exact fun r => rfl
      · refine ⟨?_, rfl⟩
        dsimp only
        rw [hstep, hstep]
        all_goals exact fun r => rfl
    · refine ⟨?_, pendingGet_set_ne st.pendingReviews email.uid _ u hne⟩
      dsimp only
      rw [hstep, hstep]
      all_goals exact fun r => rfl

lemma processFold_preserve (R : Router) (sendOk : Bool) (emails : List EmailR) (u : ℤ)
    (hall : ∀ x ∈ emails, ¬(u = x.uid)) :
    ∀ (acc : DashState × List MailOp),
    ((emails.foldl (fun acc e =>
        let pr := processOne R sendOk acc.1 e
        (pr.1, acc.2 ++ pr.2)) acc).1.emailsData.find? (fun r => r.uid == u)
      = acc.1.emailsData.find? (fun r => r.uid == u)) ∧
    (pendingGet (emails.foldl (fun acc e =>
        let pr := processOne R sendOk acc.1 e
        (pr.1, acc.2 ++ pr.2)) acc).1.pendingReviews u
      = pendingGet acc.1.pendingReviews u) := by
  induction emails with
  | nil => intro acc; exact ⟨rfl, rfl⟩
  | cons x rest ih =>
    intro acc
    rw [List.foldl_cons]
    have hx := processOne_preserve R sendOk acc.1 x u (hall x (List.mem_cons_self _ _))
    have hrest := ih (fun y hy => hall y (List.mem_cons_of_mem _ hy))
      (((processOne R sendOk acc.1 x).1, acc.2 ++ (processOne R sendOk acc.1 x).2))
    exact ⟨hrest.1.trans hx.1, hrest.2.trans hx.2⟩

def c7RevEmail : EmailR :=
  ⟨1, "old@example.com", "me@example.com", "old subject", "old body", "d1"⟩

def c7StaleRec : EmailStatusR :=
  ⟨1, "old@example.com", "old subject", "old body", "Skipped", [], "", .num 0, "", false⟩

def c7NoAiRouter : Router := ⟨[], none, "analyze"⟩

/-- Claim C7 counterexample: a message sitting in the Review folder whose
uid already has an in-memory record in a non-Review state (here Skipped
with needs-review false) is NOT rehydrated into a Review record: the stale
record keeps its state, against the claim that every message present in
the Review folder ends in a record with state Review and needs-review
true.  The pending half holds even here: the same pass gives the stale
uid a pending-review entry. -/
theorem c7_stale_record_counterexample :
    statusOfUid (process_emails c7NoAiRouter true [c7RevEmail] []
        ⟨[c7StaleRec], []⟩).1 1 = some "Skipped" ∧
    needsReviewOfUid (process_emails c7NoAiRouter true [c7RevEmail] []
        ⟨[c7StaleRec], []⟩).1 1 = some false ∧
    (pendingGet (process_emails c7NoAiRouter true [c7RevEmail] []
        ⟨[c7StaleRec], []⟩).1.pendingReviews 1).isSome = true :=
  ⟨rfl, rfl, rfl⟩

/-- Claim C7 (amended): at the beginning of a poll cycle EVERY message in
the external Review folder — stale-record uids included — has a
pending-review entry afterwards, so operator approve and reject can
resolve it; and every Review-folder message whose uid has no in-memory
record yet is in addition rehydrated into a record with state Review and
needs-review true.  Both survive the processing of the new unread mail of
the same cycle, whose fresh-uid filter excludes the rehydrated uids. -/
theorem c7_amended_fresh_rehydration (R : Router) (sendOk : Bool)
    (revs unread : List EmailR) (st : DashState) (e : EmailR)
    (he : e ∈ revs) :
    (pendingGet (process_emails R sendOk revs unread st).1.pendingReviews e.uid).isSome
      = true ∧
    (e.uid ∉ uidsOf st.emailsData →
      ∃ rec, (process_emails R sendOk revs unread st).1.emailsData.find?
          (fun r => r.uid == e.uid) = some rec ∧
        rec.status = "Review" ∧ rec.needs_review = true) := by
  have hpend : (pendingGet (rehydrate revs st).1.pendingReviews e.uid).isSome = true :=
    rehydrateGo_pending_mem revs e he st (uidsOf st.emailsData)
  have hmem : e.uid ∈ (rehydrate revs st).2 :=
    rehydrateGo_uid_mem revs e he st (uidsOf st.emailsData)
  have hcont : (rehydrate revs st).2.contains e.uid = true :=
    List.elem_eq_true_of_mem hmem
  have hall : ∀ x ∈ unread.filter (fun x => !((rehydrate revs st).2.contains x.uid)),
      ¬(e.uid = x.uid) := by
    intro x hx heq
    have h1 := List.of_mem_filter hx
    rw [← heq, hcont] at h1
    simp at h1
  have hpres := processFold_preserve R sendOk
    (unread.filter (fun x => !((rehydrate revs st).2.contains x.uid))) e.uid hall
    (({ emailsData := (rehydrate revs st).1.emailsData ++
          (unread.filter (fun x => !((rehydrate revs st).2.contains x.uid))).map
            mkPendingStatus,
        pendingReviews := (rehydrate revs st).1.pendingReviews } : DashState),
      ([] : List MailOp))
  constructor
  · exact (congrArg Option.isSome hpres.2).trans hpend
  · intro hfresh
    obtain ⟨rec, hfind, hs, hn⟩ :=
      rehydrateGo_review_status revs e.uid st (uidsOf st.emailsData) rfl
        (Or.inl ⟨hfresh, ⟨e, he, rfl⟩⟩)
    have hfind2 : (rehydrate revs st).1.emailsData.find? (fun r => r.uid == e.uid)
        = some rec := hfind
    exact ⟨rec, hpres.1.trans (find?_append_left _ hfind2), hs, hn⟩

def c7FreshEmail : EmailR :=
  ⟨7, "new@example.com", "me@example.com", "pending subject", "pending body", "d7"⟩

/-- C7 witness: the theorem applied twice at concrete inputs — once on the
stale-record state (uid 1 carries a Skipped record and no pending entry,
yet gains its pending entry), once on a fresh uid (which gains both the
pending entry and the Review record). -/
theorem c7_amended_fresh_rehydration_witness :
    c7RevEmail ∈ [c7RevEmail] ∧
    (pendingGet (process_emails c7NoAiRouter true [c7RevEmail] []
        ⟨[c7StaleRec], []⟩).1.pendingReviews c7RevEmail.uid).isSome = true ∧
    c7FreshEmail ∈ [c7FreshEmail] ∧
    c7FreshEmail.uid ∉ uidsOf (([] : List EmailStatusR)) ∧
    (pendingGet (process_emails c7NoAiRouter true [c7FreshEmail] []
        ⟨[], []⟩).1.pendingReviews c7FreshEmail.uid).isSome = true ∧
    (∃ rec, (process_emails c7NoAiRouter true [c7FreshEmail] []
        ⟨[], []⟩).1.emailsData.find? (fun r => r.uid == c7FreshEmail.uid) = some rec ∧
      rec.status = "Review" ∧ rec.needs_review = true) :=
  ⟨List.mem_singleton.mpr rfl,
    (c7_amended_fresh_rehydration c7NoAiRouter true [c7RevEmail] [] ⟨[c7StaleRec], []⟩
      c7RevEmail (List.mem_singleton.mpr rfl)).1,
    List.mem_singleton.mpr rfl, by decide,
    (c7_amended_fresh_rehydration c7NoAiRouter true [c7FreshEmail] [] ⟨[], []⟩
      c7FreshEmail (List.mem_singleton.mpr rfl)).1,
    (c7_amended_fresh_rehydration c7NoAiRouter true [c7FreshEmail] [] ⟨[], []⟩
      c7FreshEmail (List.mem_singleton.mpr rfl)).2 (by decide)⟩

def c10Email : EmailR :=
  ⟨5, "vendor@example.com", "me@example.com", "invoice", "please pay", "d5"⟩

def c10Rec : EmailStatusR :=
  ⟨5, "vendor@example.com", "invoice", "please pay", "Review", [], "", .num 0, "", true⟩

def c10St : DashState := ⟨[c10Rec], [(5, ⟨c10Email, none⟩)]⟩

theorem c10_reject_survives_move_failure_witness :
    (pendingGet c10St.pendingReviews 5).isSome = true ∧
    c10St.emailsData.find? (fun r => r.uid == 5) = some c10Rec ∧
    ((reject_email 5 false c10St).2 = [MailOp.logAction 5 "rejected"] ∧
     statusOfUid (reject_email 5 false c10St).1 5 = some "Skipped" ∧
     needsReviewOfUid (reject_email 5 false c10St).1 5 = some false ∧
     pendingGet (reject_email 5 false c10St).1.pendingReviews 5 = none ∧
     statusOfUid (reject_email 5 false c10St).1 5 ≠ some "Error") :=
  ⟨rfl, rfl, c10_reject_survives_move_failure 5 c10St c10Rec rfl rfl⟩

def c2Json : String :=
  "\x7b\"category\": \"spam\", \"action\": \"spam\", \"forward_to\": null, \"confidence\": 0.97, \"risk_flags\": [\"phishing_link\"], \"reason\": \"credential theft attempt\"\x7d"

def c2Backend : ℕ → Except String String := fun _ => .ok c2Json

def c2Router : Router := ⟨[], some (fun _ => ollamaAnalyze c2Backend 2), "analyze"⟩

def c2Email : EmailR :=
  ⟨101, "attacker@evil.example", "me@example.com", "Verify your account",
    "click the link", "d101"⟩

/-- Claim C2: on the spam scenario the analyzer output matches the claim
(category spam, destination defaulted to spam at mail.local, confidence
0.97, reasoning carrying the risk flag) and the decision has
should-forward true; but the lifecycle step diverges from the claim: the
quarantine test compares the category to the string quarantine, which the
analyzer never emits, so the message is moved to Processed (not to the
quarantine folder) and the record ends Forwarded (not Quarantined). -/
theorem c2_spam_quarantine_divergence :
    (ollamaAnalyze c2Backend 2).category = "spam" ∧
    (ollamaAnalyze c2Backend 2).forward_to = "spam@mail.local" ∧
    (ollamaAnalyze c2Backend 2).confidence = PFloat.num (mkRat 97 100) ∧
    pyIn "phishing_link" (ollamaAnalyze c2Backend 2).reasoning = true ∧
    (c2Router.decide c2Email.toDict).should_forward = true ∧
    statusOfUid (process_emails c2Router true [] [c2Email] ⟨[], []⟩).1 101
      = some "Forwarded" ∧
    ¬(statusOfUid (process_emails c2Router true [] [c2Email] ⟨[], []⟩).1 101
      = some "Quarantined") ∧
    (process_emails c2Router true [] [c2Email] ⟨[], []⟩).2 =
      [MailOp.forwardMsg 101 "spam@mail.local",
       MailOp.moveMsg 101 "Processed" "INBOX",
       MailOp.logEmail 101 "forwarded"] ∧
    ¬(MailOp.moveMsg 101 "Quarantine" "INBOX"
        ∈ (process_emails c2Router true [] [c2Email] ⟨[], []⟩).2) := by
  decide

def c3Json : String :=
  "\x7b\"category\": \"vendors\", \"action\": \"needs_review\", \"forward_to\": \"vendors@mail.local\", \"confidence\": 0.55, \"risk_flags\": [\"wire_transfer\"], \"reason\": \"bank change request\"\x7d"

def c3Backend : ℕ → Except String String := fun _ => .ok c3Json

def c3Router : Router := ⟨[], some (fun _ => ollamaAnalyze c3Backend 2), "analyze"⟩

def c3Email : EmailR :=
  ⟨202, "vendor@partner.example", "me@example.com", "Updated bank details",
    "please use the new account", "d202"⟩

def c3St1 : DashState := (process_emails c3Router true [] [c3Email] ⟨[], []⟩).1

/-- Claim C3: on the vendors scenario the decision has should-forward
false and the message enters Review with a pending entry, as claimed; but
the subsequent operator approve diverges from the claim: the stored
decision does not want forwarding and the record stores an empty
destination list, so the approve forwards nothing and issues no move, yet
still marks the record Forwarded. -/
theorem c3_approve_after_review_divergence :
    (ollamaAnalyze c3Backend 2).forward_to = "vendors@mail.local" ∧
    (ollamaAnalyze c3Backend 2).confidence = PFloat.num (mkRat 11 20) ∧
    (c3Router.decide c3Email.toDict).should_forward = false ∧
    statusOfUid c3St1 202 = some "Review" ∧
    (pendingGet c3St1.pendingReviews 202).isSome = true ∧
    (approve_email 202 c3St1).2 = [MailOp.logAction 202 "approved"] ∧
    ¬(MailOp.forwardMsg 202 "vendors@mail.local" ∈ (approve_email 202 c3St1).2) ∧
    ¬(MailOp.moveMsg 202 "Processed" "Review" ∈ (approve_email 202 c3St1).2) ∧
    statusOfUid (approve_email 202 c3St1).1 202 = some "Forwarded" ∧
    forwardToOfUid (approve_email 202 c3St1).1 202 = some [] := by
  decide

end MailAgent
